import Mathlib

/-!
# Verification of the iota.go binary codec and milestone core

This development shallowly embeds the Go source of the iota.go client
library (binary codec for Message/Indexation/Milestone/TreasuryOutput and
the milestone signature core) in Lean 4 and proves properties of the
embedding.

Conventions:
* Go byte buffers become `List (Fin 256)`.
* Go machine integers (`uint8/16/32/64`) become `Nat`; wherever the wire
  format truncates, the embedding takes `% 256^w` explicitly (the
  little-endian writer does this byte by byte).  Go `int` values that can
  be negative (the signature threshold) become `Int`.
* Fallible Go functions returning `(T, error)` become `Except Err T`;
  functions returning a bare `error` become `Option Err` (`none` = `nil`).
  Go wraps errors in context strings via `fmt.Errorf("...: %w", err)`;
  the embedding keeps the wrapped base error and drops the message text,
  which is what `errors.Is` observes.
* The fluent `NewDeserializer(data). ... .Done()` chains of the source are
  embedded as `Except`-monadic parsers `List Byte → Except Err (α × List Byte)`
  returning the parsed value and the remaining suffix; the consumed count
  of the Go API is `data.length - rest.length`.
* `crypto/ed25519` is external to the repository; functions calling
  `ed25519.Verify` take the verification function as an explicit
  parameter.
-/

set_option maxRecDepth 40000

namespace GIota

/-- A byte, as in a Go `byte`. -/
abbrev Byte := Fin 256

/-- A Go byte slice. -/
abbrev Bytes := List Byte

/-- A Go fixed-size byte array `[n]byte`. -/
def BytesN (n : Nat) := { l : Bytes // l.length = n }

instance (n : Nat) : DecidableEq (BytesN n) := fun a b =>
  decidable_of_iff (a.val = b.val) Subtype.ext_iff.symm

/-- Little-endian value of a byte string (as read by `binary.LittleEndian`). -/
def leVal : Bytes → Nat
  | [] => 0
  | b :: r => b.val + 256 * leVal r

/-- Little-endian encoding of `n` on `k` bytes (as written by
`binary.LittleEndian`); the value is implicitly truncated to `n % 256^k`. -/
def leBytes (n : Nat) : Nat → Bytes
  | 0 => []
  | k + 1 => ⟨n % 256, Nat.mod_lt _ (by decide)⟩ :: leBytes (n / 256) k


/-- `bytes.Compare`-style lexicographic comparison: unsigned bytes
left-to-right, a strict prefix is smaller. -/
def bytesCompare : Bytes → Bytes → Ordering
  | [], [] => .eq
  | [], _ :: _ => .lt
  | _ :: _, [] => .gt
  | a :: as, b :: bs =>
      if a.val < b.val then .lt
      else if b.val < a.val then .gt
      else bytesCompare as bs

/-- `bytes.Compare(a, b) < 0`. -/
def bytesLt (a b : Bytes) : Bool := bytesCompare a b = .lt

/-- `bytes.Compare(a, b) <= 0`. -/
def bytesLe (a b : Bytes) : Bool := bytesCompare a b ≠ .gt

/-! ## Deserialization modes (serializable.go, constants used by every codec) -/

/-- `DeSerializationMode` is a byte-sized bit mask in the source. -/
abbrev DeSerializationMode := Nat

/-- Mode for no validation. -/
def DeSeriModeNoValidation : DeSerializationMode := 0

/-- Mode for validation. -/
def DeSeriModePerformValidation : DeSerializationMode := 1

/-- `func (mode DeSerializationMode) HasMode(mode2) bool { return mode&mode2 > 0 }`. -/
def DeSerializationMode.HasMode (mode mode2 : DeSerializationMode) : Bool :=
  Nat.land mode mode2 != 0

/-! ## Error taxonomy

One inductive covering the distinct base error values of the source
(`error.go`, `indexation.go`, `milestone.go`) and of the spec's §7 error
taxonomy for the parts of the codec whose source is not under `src/`.
Wrapping context strings are dropped; payload data that a claim depends
on (positions, keys, counts) is kept. -/
inductive Err where
  | notEnoughData
  | notAllConsumed
  | lengthInvalid
  | invalidBytes
  | typeMismatch (expected actual : Nat)
  | minNotReached
  | maxExceeded
  | orderViolation
  | unknownPayloadType
  | unknownAddrType
  | unknownInputType
  | unknownOutputType
  | unknownUnlockBlockType
  | unknownSignatureType
  | unknownEssenceType
  | amountZero
  | amountExceedsSupply
  | dustAllowanceBelowMin
  | outputsSumExceedsSupply
  | refUTXOIndexInvalid
  | unlockBlocksValidation
  | indexationIndexExceedsMaxSize
  | indexationIndexUnderMinSize
  | milestoneTooFewSignatures
  | milestoneTooFewSignaturesForVerificationThreshold (wanted : Int) (had : Nat)
  | milestoneTooFewPublicKeys
  | milestonePublicKeyOrderViolatesLexicalOrder
  | milestoneProducedSignaturesCountMismatch (wanted produced : Nat)
  | milestoneSignaturesPublicKeyCountMismatch
  | milestoneTooManySignatures
  | milestoneTooManyPublicKeys
  | milestoneInvalidMinSignatureThreshold
  | milestoneNonApplicablePublicKey (key : BytesN 32)
  | milestoneSignatureThresholdGreaterThanApplicablePublicKeySet
  | milestoneInvalidSignature (index : Nat) (key : BytesN 32)
  | milestoneDuplicatedPublicKey (prevIndex index : Nat)
deriving DecidableEq

/-! ## Size constants (serializable.go / message.go values used by src files) -/

def TypeDenotationByteSize : Nat := 4
def SmallTypeDenotationByteSize : Nat := 1
def OneByte : Nat := 1
def UInt16ByteSize : Nat := 2
def UInt32ByteSize : Nat := 4
def UInt64ByteSize : Nat := 8
def MessageIDLength : Nat := 32

/-- `MessageBinSerializedMaxSize` (message.go, absent from src): the spec
fixes MaxMessageSize at 32,768 bytes (§6). -/
def MessageBinSerializedMaxSize : Nat := 32768

/-! ## Checks from error.go -/

/-- `checkType` (error.go): the leading u32 type denotation must equal
`shouldType`. -/
def checkType (data : Bytes) (shouldType : Nat) : Option Err :=
  if data.length < 4 then some .notEnoughData
  else if leVal (data.take 4) ≠ shouldType then
    some (.typeMismatch shouldType (leVal (data.take 4)))
  else none

/-- `checkTypeByte` (error.go): the leading type byte must equal `shouldType`. -/
def checkTypeByte (data : Bytes) (shouldType : Nat) : Option Err :=
  match data with
  | [] => some .notEnoughData
  | b :: _ => if b.val ≠ shouldType then some (.typeMismatch shouldType b.val) else none

/-- `checkMinByteLength` (error.go). -/
def checkMinByteLength (minLen length : Nat) : Option Err :=
  if length < minLen then some .notEnoughData else none

/-- `checkExactByteLength` (error.go). -/
def checkExactByteLength (exact length : Nat) : Option Err :=
  if length ≠ exact then some .invalidBytes else none

/-- Lifts an `AbortIf`-style optional error into the parser monad. -/
def abortIf : Option Err → Except Err Unit
  | some e => .error e
  | none => .ok ()

instance {ε α : Type} [DecidableEq ε] [DecidableEq α] : DecidableEq (Except ε α) :=
  fun x y =>
  match x, y with
  | .ok a, .ok b =>
      if h : a = b then .isTrue (by rw [h])
      else .isFalse (by intro hh; cases hh; exact h rfl)
  | .error a, .error b =>
      if h : a = b then .isTrue (by rw [h])
      else .isFalse (by intro hh; cases hh; exact h rfl)
  | .ok _, .error _ => .isFalse (by intro h; cases h)
  | .error _, .ok _ => .isFalse (by intro h; cases h)

/-! ## Primitive reader operations

Modelled from the spec: the primitive reader/writer (`serializer.go`) is
not under `src/`; §4.1 of the spec defines its operations.  A parser takes
the remaining buffer and returns the parsed value plus the remaining
suffix; the consumed count of the Go API is the length difference. -/

/-- Modelled from the spec: `read_fixed(n)`/`Skip` — take `n` bytes, failing
with `NotEnoughData` if fewer remain (§4.1). -/
def readN (n : Nat) (bs : Bytes) : Except Err (Bytes × Bytes) :=
  if n ≤ bs.length then .ok (bs.take n, bs.drop n) else .error .notEnoughData

/-- Modelled from the spec: `read_fixed` into an `n`-byte destination (§4.1). -/
def readExact (n : Nat) (bs : Bytes) : Except Err (BytesN n × Bytes) :=
  if h : n ≤ bs.length then
    .ok (⟨bs.take n, by simp [List.length_take]; omega⟩, bs.drop n)
  else .error .notEnoughData

/-- Modelled from the spec: `read_u8/u16/u32/u64` — little-endian on `width`
bytes (§4.1). -/
def readNum (width : Nat) (bs : Bytes) : Except Err (Nat × Bytes) := do
  let (v, r) ← readN width bs
  return (leVal v, r)

/-- Modelled from the spec: `read_prefixed_bytes(prefix_width, max_len)` —
reads length `L`, then `L` bytes; fails with `LengthInvalid` if
`L > max_len` (§4.1). -/
def readVariableByteSlice (prefixWidth maxLen : Nat) (bs : Bytes) :
    Except Err (Bytes × Bytes) := do
  let (l, r) ← readNum prefixWidth bs
  if l > maxLen then throw .lengthInvalid
  readN l r

/-- Modelled from the spec: the chunk loop of
`read_prefixed_array_slice(prefix_width, element_size)` after the element
count has been read (§4.1). -/
def readChunks (sz : Nat) : Nat → Bytes → Except Err (List (BytesN sz) × Bytes)
  | 0, bs => .ok ([], bs)
  | c + 1, bs => do
      let (a, r) ← readExact sz bs
      let (as, r') ← readChunks sz c r
      return (a :: as, r')

/-- Modelled from the spec: `read_prefixed_array_slice` — reads the element
count on `prefixWidth` bytes, then `count` chunks of `sz` bytes (§4.1). -/
def readArraySlice (prefixWidth sz : Nat) (bs : Bytes) :
    Except Err (List (BytesN sz) × Bytes) := do
  let (c, r) ← readNum prefixWidth bs
  readChunks sz c r

/-- Modelled from the spec: the length-then-payload writer dual of
`read_prefixed_bytes` (§4.1). -/
def writeVariableByteSlice (prefixWidth : Nat) (payload : Bytes) : Bytes :=
  leBytes payload.length prefixWidth ++ payload

/-- Modelled from the spec: the writer dual of `read_prefixed_array_slice`
(§4.1). -/
def writeArraySlice (prefixWidth : Nat) (sz : Nat) (xs : List (BytesN sz)) : Bytes :=
  leBytes xs.length prefixWidth ++ (xs.map Subtype.val).flatten

/-- Modelled from the spec: `done()` — in validating mode fails with
`NotAllConsumed` if any bytes remain (§4.1). -/
def doneCheck (mode : DeSerializationMode) (rest : Bytes) : Except Err Unit :=
  if mode.HasMode DeSeriModePerformValidation && !rest.isEmpty then
    .error .notAllConsumed
  else .ok ()

/-! ## Indexation (indexation.go) -/

/-- Defines the indexation payload's ID. -/
def IndexationPayloadTypeID : Nat := 2

/-- type bytes + index prefix + one char + data length. -/
def IndexationBinSerializedMinSize : Nat :=
  TypeDenotationByteSize + UInt16ByteSize + OneByte + UInt32ByteSize

/-- Defines the max length of the index within an Indexation. -/
def IndexationIndexMaxLength : Nat := 64

/-- Defines the min length of the index within an Indexation. -/
def IndexationIndexMinLength : Nat := 1

/-- `Indexation` (indexation.go): a payload holding an index and associated
data. -/
structure Indexation where
  Index : Bytes
  Data : Bytes
deriving DecidableEq

/-- `(*Indexation).Deserialize` (indexation.go). -/
def Indexation.deserialize (data : Bytes) (deSeriMode : DeSerializationMode) :
    Except Err (Indexation × Bytes) := do
  let _ ← (if deSeriMode.HasMode DeSeriModePerformValidation then do
      abortIf (checkMinByteLength IndexationBinSerializedMinSize data.length)
      abortIf (checkType data IndexationPayloadTypeID)
    else pure ())
  let p1 ← readN TypeDenotationByteSize data
  let p2 ← readVariableByteSlice UInt16ByteSize IndexationIndexMaxLength p1.2
  let _ ← (if deSeriMode.HasMode DeSeriModePerformValidation then
      (if p2.1.length < IndexationIndexMinLength then
        throw Err.indexationIndexUnderMinSize
      else pure ())
    else pure ())
  let p3 ← readVariableByteSlice UInt32ByteSize MessageBinSerializedMaxSize p2.2
  let _ ← doneCheck deSeriMode p3.2
  return ({ Index := p2.1, Data := p3.1 }, p3.2)

/-- The byte string `(*Indexation).Serialize` writes: payload type (u32),
u16-length-prefixed index, u32-length-prefixed data. -/
def Indexation.emit (u : Indexation) : Bytes :=
  leBytes IndexationPayloadTypeID TypeDenotationByteSize ++
  writeVariableByteSlice UInt16ByteSize u.Index ++
  writeVariableByteSlice UInt32ByteSize u.Data

/-- `(*Indexation).Serialize` (indexation.go). -/
def Indexation.serialize (u : Indexation) (deSeriMode : DeSerializationMode) :
    Except Err Bytes := do
  if deSeriMode.HasMode DeSeriModePerformValidation then
    if u.Index.length > IndexationIndexMaxLength then
      throw Err.indexationIndexExceedsMaxSize
    if u.Index.length < IndexationIndexMinLength then
      throw Err.indexationIndexUnderMinSize
  return u.emit

/-! ## TreasuryOutput (treasury_output.go) -/

/-- `OutputTreasuryOutput` (output.go, spec §6): the treasury output's type
byte is 2. -/
def OutputTreasuryOutput : Nat := 2

/-- Defines the binary serialized size of a TreasuryOutput. -/
def TreasuryOutputBytesSize : Nat := SmallTypeDenotationByteSize + UInt64ByteSize

/-- The network's total token supply (spec §6). -/
def TokenSupply : Nat := 2779530283277761

/-- `TreasuryOutput` (treasury_output.go). -/
structure TreasuryOutput where
  Amount : Nat
deriving DecidableEq

/-- `(*TreasuryOutput).Deserialize` (treasury_output.go): note that beyond
the gated min-length and type-byte checks it reads the amount without any
validation. -/
def TreasuryOutput.deserialize (data : Bytes) (deSeriMode : DeSerializationMode) :
    Except Err (TreasuryOutput × Bytes) := do
  let _ ← (if deSeriMode.HasMode DeSeriModePerformValidation then do
      abortIf (checkMinByteLength TreasuryOutputBytesSize data.length)
      abortIf (checkTypeByte data OutputTreasuryOutput)
    else pure ())
  let p1 ← readN SmallTypeDenotationByteSize data
  let p2 ← readNum UInt64ByteSize p1.2
  let _ ← doneCheck deSeriMode p2.2
  return ({ Amount := p2.1 }, p2.2)

/-- The byte string `(*TreasuryOutput).Serialize` writes. -/
def TreasuryOutput.emit (t : TreasuryOutput) : Bytes :=
  leBytes OutputTreasuryOutput SmallTypeDenotationByteSize ++
  leBytes t.Amount UInt64ByteSize

/-- `(*TreasuryOutput).Serialize` (treasury_output.go): it performs no
validation whatsoever, in any mode. -/
def TreasuryOutput.serialize (t : TreasuryOutput)
    (_deSeriMode : DeSerializationMode) : Except Err Bytes :=
  .ok t.emit

/-! ## Milestone (milestone.go) definitions -/

/-- Defines the milestone payload's ID. -/
def MilestonePayloadTypeID : Nat := 1

def MilestoneInclusionMerkleProofLength : Nat := 32
def MilestoneSignatureLength : Nat := 64
def MilestoneIDLength : Nat := 32
def MilestonePublicKeyLength : Nat := 32

/-- payload type+index+timestamp+parent1+parent2+inclusion-merkle-proof+
pubkeys-length+pubkey+sigs-length+sigs. -/
def MilestoneBinSerializedMinSize : Nat :=
  TypeDenotationByteSize + UInt32ByteSize + UInt64ByteSize + MessageIDLength +
  MessageIDLength + MilestoneInclusionMerkleProofLength + OneByte +
  MilestonePublicKeyLength + OneByte + MilestoneSignatureLength

def MaxSignaturesInAMilestone : Nat := 255
def MinSignaturesInAMilestone : Nat := 1
def MaxPublicKeysInAMilestone : Nat := 255
def MinPublicKeysInAMilestone : Nat := 1

/-- `MilestonePublicKey` is a public key within a Milestone (`[32]byte`). -/
abbrev MilestonePublicKey := BytesN 32

/-- `MilestoneSignature` is a signature within a Milestone (`[64]byte`). -/
abbrev MilestoneSignature := BytesN 64

/-- `MilestoneParentMessageID` is a reference to a parent message. -/
abbrev MilestoneParentMessageID := BytesN 32

/-- `MilestoneInclusionMerkleProof` is a milestone's merkle proof data. -/
abbrev MilestoneInclusionMerkleProof := BytesN 32

/-- `Milestone` (milestone.go): the special payload defining the inclusion
set of other messages in the Tangle.  `uint32`/`uint64` fields are `Nat`
(their Go values are below `2^32`/`2^64`; the wire writer truncates
explicitly). -/
structure Milestone where
  Index : Nat
  Timestamp : Nat
  Parent1 : MilestoneParentMessageID
  Parent2 : MilestoneParentMessageID
  InclusionMerkleProof : MilestoneInclusionMerkleProof
  PublicKeys : List MilestonePublicKey
  Signatures : List MilestoneSignature
deriving DecidableEq

/-- `NewMilestone` (milestone.go): creates a milestone, auto-sorting the
given public keys by their byte order.  Go's `sort.Slice` with the
`bytes.Compare < 0` comparator is an arbitrary (unstable) correct sort;
because byte-wise lexicographic order is total and antisymmetric, sorted
output plus permutation determines the result uniquely, so `mergeSort`
computes exactly what the Go code computes. -/
def NewMilestone (index timestamp : Nat)
    (parent1 parent2 : MilestoneParentMessageID)
    (inclMerkleProof : MilestoneInclusionMerkleProof)
    (pubKeys : List MilestonePublicKey) : Except Err Milestone :=
  if pubKeys.length < MinPublicKeysInAMilestone then
    .error .milestoneTooFewPublicKeys
  else
    .ok { Index := index, Timestamp := timestamp,
          Parent1 := parent1, Parent2 := parent2,
          InclusionMerkleProof := inclMerkleProof,
          PublicKeys := pubKeys.mergeSort (fun a b => bytesLe a.val b.val),
          Signatures := [] }

/-- `(*Milestone).Essence` (milestone.go): index, timestamp, the two
parents, the inclusion merkle proof and the byte-count-prefixed public
keys — the bytes to be signed. -/
def Milestone.Essence (m : Milestone) : Except Err Bytes :=
  if m.PublicKeys.length < MinPublicKeysInAMilestone then
    .error .milestoneTooFewPublicKeys
  else
    .ok (leBytes m.Index UInt32ByteSize ++ leBytes m.Timestamp UInt64ByteSize ++
         m.Parent1.val ++ m.Parent2.val ++ m.InclusionMerkleProof.val ++
         writeArraySlice OneByte 32 m.PublicKeys)

/-- An all-zero signature, used only as the (never reached) out-of-range
default of indexed signature access — the Go code indexes
`m.Signatures[msPubKeyIndex]`, which is in range whenever the signature
and public-key counts match. -/
def zeroSig : MilestoneSignature := ⟨List.replicate 64 0, by simp⟩

/-- A lookup in the model of the Go `seenPubKeys` map (a `map[pk]int`
holding the position of the first occurrence of each processed key). -/
def seenLookup (seen : List (MilestonePublicKey × Nat))
    (pk : MilestonePublicKey) : Option Nat :=
  match seen with
  | [] => none
  | (k, i) :: r => if k = pk then some i else seenLookup r pk

/-- The `for msPubKeyIndex, msPubKey := range m.PublicKeys` loop of
`(*Milestone).VerifySignatures` (milestone.go): duplicate check against
the seen map, applicability check, then Ed25519 verification; the first
failure aborts with its error. -/
def verifySignaturesLoop
    (verify : MilestonePublicKey → Bytes → MilestoneSignature → Bool)
    (essence : Bytes) (sigs : List MilestoneSignature)
    (applicable : Finset MilestonePublicKey) :
    List MilestonePublicKey → Nat → List (MilestonePublicKey × Nat) → Option Err
  | [], _, _ => none
  | pk :: rest, idx, seen =>
      match seenLookup seen pk with
      | some prev => some (.milestoneDuplicatedPublicKey prev idx)
      | none =>
          if pk ∉ applicable then some (.milestoneNonApplicablePublicKey pk)
          else if ¬ verify pk essence (sigs.getD idx zeroSig) then
            some (.milestoneInvalidSignature idx pk)
          else verifySignaturesLoop verify essence sigs applicable rest (idx + 1)
            ((pk, idx) :: seen)

/-- `(*Milestone).VerifySignatures` (milestone.go).  The Go `int`
threshold is an `Int` (it can be negative); the Go
`MilestonePublicKeySet` (a `map[pk]struct{}`) is a `Finset`; the external
`ed25519.Verify` is the `verify` parameter. -/
def Milestone.VerifySignatures
    (verify : MilestonePublicKey → Bytes → MilestoneSignature → Bool)
    (m : Milestone) (minSigThreshold : Int)
    (applicablePubKeys : Finset MilestonePublicKey) : Option Err :=
  if minSigThreshold = 0 then some .milestoneInvalidMinSignatureThreshold
  else if m.Signatures.length = 0 then some .milestoneTooFewSignatures
  else if m.Signatures.length ≠ m.PublicKeys.length then
    some .milestoneSignaturesPublicKeyCountMismatch
  else if (m.Signatures.length : Int) < minSigThreshold then
    some (.milestoneTooFewSignaturesForVerificationThreshold minSigThreshold
      m.Signatures.length)
  else if (applicablePubKeys.card : Int) < minSigThreshold then
    some .milestoneSignatureThresholdGreaterThanApplicablePublicKeySet
  else
    match m.Essence with
    | .error e => some e
    | .ok ess =>
        verifySignaturesLoop verify ess m.Signatures applicablePubKeys
          m.PublicKeys 0 []

/-- The failure cases of `(*Milestone).Sign` (milestone.go); `E` is the
error type of the caller-supplied signing function. -/
inductive SignErr (E : Type) where
  | essenceErr (e : Err)
  | signingFuncErr (e : E)
  | producedCountMismatch (wanted produced : Nat)
  | tooFewSignatures
  | tooManySignatures
deriving DecidableEq

/-- `(*Milestone).Sign` (milestone.go): computes the essence, calls the
signing function on the public keys and essence, validates the produced
signature count, and only then assigns the `Signatures` field.  The
returned milestone is the post-state of the Go receiver `m`. -/
def Milestone.Sign {E : Type}
    (signingFunc : List MilestonePublicKey → Bytes →
      Except E (List MilestoneSignature))
    (m : Milestone) : Milestone × Option (SignErr E) :=
  match m.Essence with
  | .error e => (m, some (.essenceErr e))
  | .ok ess =>
      match signingFunc m.PublicKeys ess with
      | .error e => (m, some (.signingFuncErr e))
      | .ok sigs =>
          if m.PublicKeys.length ≠ sigs.length then
            (m, some (.producedCountMismatch m.PublicKeys.length sigs.length))
          else if sigs.length < MinSignaturesInAMilestone then
            (m, some .tooFewSignatures)
          else if sigs.length > MaxSignaturesInAMilestone then
            (m, some .tooManySignatures)
          else ({ m with Signatures := sigs }, none)

/-- Modelled from the spec: `ArrayRules.LexicalOrderWithoutDupsValidator`
(serializable.go, absent from src/) — §4.2: when ordering and uniqueness
are both enforced a single pass suffices, the previous element must be
strictly less than the current one. -/
def lexicallyOrderedWithoutDups : List Bytes → Bool
  | [] => true
  | [_] => true
  | a :: b :: r => bytesLt a b && lexicallyOrderedWithoutDups (b :: r)

/-- `(*Milestone).Deserialize` (milestone.go).  The empty-public-keys and
count-mismatch aborts are ungated; the min-size/type checks and the
lexical-order check run only with `DeSeriModePerformValidation`. -/
def Milestone.deserialize (data : Bytes) (deSeriMode : DeSerializationMode) :
    Except Err (Milestone × Bytes) := do
  let _ ← (if deSeriMode.HasMode DeSeriModePerformValidation then do
      abortIf (checkMinByteLength MilestoneBinSerializedMinSize data.length)
      abortIf (checkType data MilestonePayloadTypeID)
    else pure ())
  let p1 ← readN TypeDenotationByteSize data
  let pIdx ← readNum UInt32ByteSize p1.2
  let pTs ← readNum UInt64ByteSize pIdx.2
  let pP1 ← readExact 32 pTs.2
  let pP2 ← readExact 32 pP1.2
  let pMr ← readExact 32 pP2.2
  let pPks ← readArraySlice OneByte 32 pMr.2
  let _ ← (if pPks.1.length = 0 then
      throw Err.milestoneTooFewPublicKeys
    else pure ())
  let _ ← (if deSeriMode.HasMode DeSeriModePerformValidation then
      (if ¬ lexicallyOrderedWithoutDups (pPks.1.map Subtype.val) then
        throw Err.milestonePublicKeyOrderViolatesLexicalOrder
      else pure ())
    else pure ())
  let pSigs ← readArraySlice OneByte 64 pPks.2
  let _ ← (if pPks.1.length ≠ pSigs.1.length then
      throw Err.milestoneSignaturesPublicKeyCountMismatch
    else pure ())
  let _ ← doneCheck deSeriMode pSigs.2
  return ({ Index := pIdx.1, Timestamp := pTs.1, Parent1 := pP1.1,
            Parent2 := pP2.1, InclusionMerkleProof := pMr.1,
            PublicKeys := pPks.1, Signatures := pSigs.1 }, pSigs.2)

/-- The gated validation of `(*Milestone).Serialize` (milestone.go):
lexical order of the public keys, then the count bounds. -/
def Milestone.serValid (m : Milestone) : Option Err :=
  if ¬ lexicallyOrderedWithoutDups (m.PublicKeys.map Subtype.val) then
    some .milestonePublicKeyOrderViolatesLexicalOrder
  else if m.PublicKeys.length > MaxPublicKeysInAMilestone then
    some .milestoneTooManyPublicKeys
  else if m.PublicKeys.length < MinPublicKeysInAMilestone then
    some .milestoneTooFewPublicKeys
  else if m.Signatures.length > MaxSignaturesInAMilestone then
    some .milestoneTooManySignatures
  else if m.Signatures.length < MinSignaturesInAMilestone then
    some .milestoneTooFewSignatures
  else none

/-- The byte string `(*Milestone).Serialize` writes. -/
def Milestone.emit (m : Milestone) : Bytes :=
  leBytes MilestonePayloadTypeID TypeDenotationByteSize ++
  leBytes m.Index UInt32ByteSize ++ leBytes m.Timestamp UInt64ByteSize ++
  m.Parent1.val ++ m.Parent2.val ++ m.InclusionMerkleProof.val ++
  writeArraySlice OneByte 32 m.PublicKeys ++
  writeArraySlice OneByte 64 m.Signatures

/-- `(*Milestone).Serialize` (milestone.go). -/
def Milestone.serialize (m : Milestone) (deSeriMode : DeSerializationMode) :
    Except Err Bytes := do
  if deSeriMode.HasMode DeSeriModePerformValidation then
    abortIf m.serValid
  return m.emit

/-! ## Addresses (address.go) -/

/-- Denotes an Ed25519 address. -/
def AddressEd25519 : Nat := 0

def Ed25519AddressBytesLength : Nat := 32
def Ed25519AddressSerializedBytesSize : Nat :=
  SmallTypeDenotationByteSize + Ed25519AddressBytesLength

/-- The address sum type (spec §4.3): a single Ed25519 variant
(address.go `type Ed25519Address [32]byte`). -/
inductive Address where
  | ed25519 (addr : BytesN 32)
deriving DecidableEq

/-- `(*Ed25519Address).Deserialize` (address.go) behind the
`AddressSelector` dispatch of `ReadObject` (spec §4.1 `read_object`):
the leading type byte selects the variant, then the 32 address bytes
follow.  (The Go code copies `data[1:]` without a bounds check outside
validation mode; the model reads with `NotEnoughData` instead, which only
changes behaviour on truncated buffers that no caller accepts.) -/
def readAddress (data : Bytes) (deSeriMode : DeSerializationMode) :
    Except Err (Address × Bytes) := do
  let _ ← (if deSeriMode.HasMode DeSeriModePerformValidation then do
      abortIf (checkMinByteLength Ed25519AddressSerializedBytesSize data.length)
      abortIf (checkTypeByte data AddressEd25519)
    else pure ())
  match data with
  | [] => throw Err.notEnoughData
  | b :: r =>
      if b.val = AddressEd25519 then do
        let p ← readExact 32 r
        return (.ed25519 p.1, p.2)
      else throw Err.unknownAddrType

/-- The bytes `(*Ed25519Address).Serialize` writes (address.go). -/
def Address.emit : Address → Bytes
  | .ed25519 a => leBytes AddressEd25519 SmallTypeDenotationByteSize ++ a.val

/-! ## Outputs (sig_locked_single_output.go, sig locked dust allowance
output source file, output.go constants from spec §6) -/

def OutputSigLockedSingleOutput : Nat := 0
def OutputSigLockedDustAllowanceOutput : Nat := 1

/-- Modelled from the spec: the dust-allowance minimum deposit — §3
requires `amount ≥ dust-allowance-min` without fixing the constant
(output.go is absent from src/); 1,000,000 as in the released library.
No claim depends on this value. -/
def DustAllowanceMin : Nat := 1000000

/-- The output sum type for transaction essences (spec §3): signature
locked single outputs and dust allowance outputs. -/
inductive Output where
  | sigLockedSingleOutput (address : Address) (amount : Nat)
  | sigLockedDustAllowanceOutput (address : Address) (amount : Nat)
deriving DecidableEq

/-- The deposit of an output (`Deposit()` in the source). -/
def Output.deposit : Output → Nat
  | .sigLockedSingleOutput _ a => a
  | .sigLockedDustAllowanceOutput _ a => a

/-- Modelled from the spec: `outputAmountValidator` (output.go, absent
from src/) — §4.6: a zero amount and an amount above the token supply are
rejected; §3: a dust allowance output must deposit at least the
dust-allowance minimum. -/
def outputAmountValidator (o : Output) : Option Err :=
  if o.deposit = 0 then some .amountZero
  else if o.deposit > TokenSupply then some .amountExceedsSupply
  else
    match o with
    | .sigLockedDustAllowanceOutput _ a =>
        if a < DustAllowanceMin then some .dustAllowanceBelowMin else none
    | _ => none

/-- The bytes the output serializers write: type byte, address, amount. -/
def Output.emit : Output → Bytes
  | .sigLockedSingleOutput addr a =>
      leBytes OutputSigLockedSingleOutput SmallTypeDenotationByteSize ++
      addr.emit ++ leBytes a UInt64ByteSize
  | .sigLockedDustAllowanceOutput addr a =>
      leBytes OutputSigLockedDustAllowanceOutput SmallTypeDenotationByteSize ++
      addr.emit ++ leBytes a UInt64ByteSize

/-- `(*SigLockedSingleOutput).Deserialize` /
`(*SigLockedDustAllowanceOutput).Deserialize` behind the `OutputSelector`
dispatch: type byte, address object, u64 amount, then the gated amount
validation. -/
def Output.deserialize (data : Bytes) (deSeriMode : DeSerializationMode) :
    Except Err (Output × Bytes) := do
  match data with
  | [] => throw Err.notEnoughData
  | b :: r =>
      if b.val = OutputSigLockedSingleOutput then do
        let pAddr ← readAddress r deSeriMode
        let pAmt ← readNum UInt64ByteSize pAddr.2
        let _ ← (if deSeriMode.HasMode DeSeriModePerformValidation then
            abortIf (outputAmountValidator
              (.sigLockedSingleOutput pAddr.1 pAmt.1))
          else pure ())
        return (Output.sigLockedSingleOutput pAddr.1 pAmt.1, pAmt.2)
      else if b.val = OutputSigLockedDustAllowanceOutput then do
        let pAddr ← readAddress r deSeriMode
        let pAmt ← readNum UInt64ByteSize pAddr.2
        let _ ← (if deSeriMode.HasMode DeSeriModePerformValidation then
            abortIf (outputAmountValidator
              (.sigLockedDustAllowanceOutput pAddr.1 pAmt.1))
          else pure ())
        return (Output.sigLockedDustAllowanceOutput pAddr.1 pAmt.1, pAmt.2)
      else throw Err.unknownOutputType

/-- `(*Output).Serialize` of either output kind: gated amount validation,
then the wire bytes. -/
def Output.serialize (o : Output) (deSeriMode : DeSerializationMode) :
    Except Err Bytes := do
  let _ ← (if deSeriMode.HasMode DeSeriModePerformValidation then
      abortIf (outputAmountValidator o)
    else pure ())
  return o.emit

/-! ## UTXO input (spec §3/§4.4; utxo_input.go is absent from src/) -/

def InputUTXO : Nat := 0
def RefUTXOIndexMax : Nat := 126
def TransactionIDLength : Nat := 32

/-- Modelled from the spec: `UTXOInput` — transaction ID and output index
(§3). -/
structure UTXOInput where
  TransactionID : BytesN 32
  TransactionOutputIndex : Nat
deriving DecidableEq

/-- The bytes a `UTXOInput` serializes to: type byte 0, transaction ID,
u16 output index. -/
def UTXOInput.emit (i : UTXOInput) : Bytes :=
  leBytes InputUTXO SmallTypeDenotationByteSize ++ i.TransactionID.val ++
  leBytes i.TransactionOutputIndex UInt16ByteSize

/-- Modelled from the spec: `UTXOInput` deserialization behind the input
selector — type byte 0, transaction ID, u16 output index; on validation
the output index must be ≤ `RefUTXOIndexMax` (§4.4). -/
def UTXOInput.deserialize (data : Bytes) (deSeriMode : DeSerializationMode) :
    Except Err (UTXOInput × Bytes) := do
  match data with
  | [] => throw Err.notEnoughData
  | b :: r =>
      if b.val = InputUTXO then do
        let pTx ← readExact 32 r
        let pIdx ← readNum UInt16ByteSize pTx.2
        let _ ← (if deSeriMode.HasMode DeSeriModePerformValidation then
            (if pIdx.1 > RefUTXOIndexMax then throw Err.refUTXOIndexInvalid
             else pure ())
          else pure ())
        return ({ TransactionID := pTx.1, TransactionOutputIndex := pIdx.1 },
          pIdx.2)
      else throw Err.unknownInputType

/-- Modelled from the spec: `UTXOInput` serialization with the gated
output-index bound. -/
def UTXOInput.serialize (i : UTXOInput) (deSeriMode : DeSerializationMode) :
    Except Err Bytes := do
  let _ ← (if deSeriMode.HasMode DeSeriModePerformValidation then
      (if i.TransactionOutputIndex > RefUTXOIndexMax then
        throw Err.refUTXOIndexInvalid
      else pure ())
    else pure ())
  return i.emit

/-! ## Signatures and unlock blocks (spec §3/§4.6/§6; the source files are
absent from src/) -/

def SignatureEd25519 : Nat := 0
def UnlockBlockSignature : Nat := 0
def UnlockBlockReference : Nat := 1

/-- Modelled from the spec: `Ed25519Signature` — public key and signature
(§3). -/
structure Ed25519Signature where
  PublicKey : BytesN 32
  Signature : BytesN 64
deriving DecidableEq

/-- Modelled from the spec: the unlock block sum — a signature unlock
block or a reference unlock block (§3). -/
inductive UnlockBlock where
  | signature (s : Ed25519Signature)
  | reference (r : Nat)
deriving DecidableEq

/-- The bytes an unlock block serializes to: the block's type byte, then
either the signature sum (type byte 0, public key, signature) or the u16
reference. -/
def UnlockBlock.emit : UnlockBlock → Bytes
  | .signature s =>
      leBytes UnlockBlockSignature SmallTypeDenotationByteSize ++
      leBytes SignatureEd25519 SmallTypeDenotationByteSize ++
      s.PublicKey.val ++ s.Signature.val
  | .reference r =>
      leBytes UnlockBlockReference SmallTypeDenotationByteSize ++
      leBytes r UInt16ByteSize

/-- Modelled from the spec: unlock block deserialization behind the
unlock-block selector (§4.3): byte tag 0 selects a signature unlock block
(whose signature is itself tag-dispatched, Ed25519 = 0), byte tag 1 a
reference unlock block. -/
def UnlockBlock.deserialize (data : Bytes)
    (_deSeriMode : DeSerializationMode) :
    Except Err (UnlockBlock × Bytes) := do
  match data with
  | [] => throw Err.notEnoughData
  | b :: r =>
      if b.val = UnlockBlockSignature then
        match r with
        | [] => throw Err.notEnoughData
        | sb :: sr =>
            if sb.val = SignatureEd25519 then do
              let pPk ← readExact 32 sr
              let pSg ← readExact 64 pPk.2
              return (.signature ⟨pPk.1, pSg.1⟩, pSg.2)
            else throw Err.unknownSignatureType
      else if b.val = UnlockBlockReference then do
        let pRef ← readNum UInt16ByteSize r
        return (.reference pRef.1, pRef.2)
      else throw Err.unknownUnlockBlockType

/-- The element loop of the object-sequence writer: serialize each element
in order, aborting on the first failure (fail-fast chaining, spec §4.1). -/
def serializeList {α : Type} (f : α → Except Err Bytes) :
    List α → Except Err (List Bytes)
  | [] => .ok []
  | x :: xs => do
      let b ← f x
      let bs ← serializeList f xs
      return b :: bs

/-- Modelled from the spec: the element loop of a length-prefixed sequence
of objects (§4.1 `read_prefixed_array_slice` for objects): parse `count`
elements, recording each element's consumed byte segment for the array
rules engine's order check (§4.2 orders by the serialized element
bytes). -/
def parseObjsSeg {α : Type} (p : Bytes → Except Err (α × Bytes)) :
    Nat → Bytes → Except Err (List (α × Bytes) × Bytes)
  | 0, bs => .ok ([], bs)
  | c + 1, bs => do
      let pa ← p bs
      let prs ← parseObjsSeg p c pa.2
      return ((pa.1, bs.take (bs.length - pa.2.length)) :: prs.1, prs.2)

/-! ## Transaction essence and transaction (spec §4.6; the source files
are absent from src/) -/

def TransactionEssenceNormal : Nat := 0
def TransactionPayloadTypeID : Nat := 0
def MinInputsCount : Nat := 1
def MaxInputsCount : Nat := 127
def MinOutputsCount : Nat := 1
def MaxOutputsCount : Nat := 127

/-- Modelled from the spec: `TransactionEssence` — inputs, outputs and an
optional Indexation payload (§3, §4.6). -/
structure TransactionEssence where
  Inputs : List UTXOInput
  Outputs : List Output
  Payload : Option Indexation
deriving DecidableEq

/-- The gated validations of essence serialization (§4.2, §4.6): count
bounds 1..127, byte-wise lexical order and uniqueness of the serialized
elements, and the outputs-sum cap. -/
def TransactionEssence.serValid (e : TransactionEssence) : Option Err :=
  if e.Inputs.length < MinInputsCount then some .minNotReached
  else if e.Inputs.length > MaxInputsCount then some .maxExceeded
  else if ¬ lexicallyOrderedWithoutDups (e.Inputs.map UTXOInput.emit) then
    some .orderViolation
  else if e.Outputs.length < MinOutputsCount then some .minNotReached
  else if e.Outputs.length > MaxOutputsCount then some .maxExceeded
  else if ¬ lexicallyOrderedWithoutDups (e.Outputs.map Output.emit) then
    some .orderViolation
  else if (e.Outputs.map Output.deposit).sum > TokenSupply then
    some .outputsSumExceedsSupply
  else none

/-- The bytes a transaction essence serializes to (§4.6): essence type
byte 0, u16-prefixed inputs, u16-prefixed outputs, u32-length-prefixed
optional Indexation payload (length 0 = no payload). -/
def TransactionEssence.emit (e : TransactionEssence) : Bytes :=
  leBytes TransactionEssenceNormal SmallTypeDenotationByteSize ++
  leBytes e.Inputs.length UInt16ByteSize ++
  (e.Inputs.map UTXOInput.emit).flatten ++
  leBytes e.Outputs.length UInt16ByteSize ++
  (e.Outputs.map Output.emit).flatten ++
  (match e.Payload with
   | none => leBytes 0 UInt32ByteSize
   | some ind => leBytes ind.emit.length UInt32ByteSize ++ ind.emit)

/-- Modelled from the spec: transaction essence deserialization (§4.6):
essence type byte (single variant 0), inputs, outputs, embedded payload;
count bounds, lexical order over the serialized element bytes and the
outputs-sum cap are validated in validating mode. -/
def TransactionEssence.deserialize (data : Bytes)
    (deSeriMode : DeSerializationMode) :
    Except Err (TransactionEssence × Bytes) := do
  let pTy ← readNum SmallTypeDenotationByteSize data
  let _ ← (if pTy.1 ≠ TransactionEssenceNormal then
      throw Err.unknownEssenceType
    else pure ())
  let pInC ← readNum UInt16ByteSize pTy.2
  let _ ← (if deSeriMode.HasMode DeSeriModePerformValidation then
      (if pInC.1 < MinInputsCount then throw Err.minNotReached
       else if pInC.1 > MaxInputsCount then throw Err.maxExceeded
       else pure ())
    else pure ())
  let pIns ← parseObjsSeg (fun bs => UTXOInput.deserialize bs deSeriMode)
    pInC.1 pInC.2
  let _ ← (if deSeriMode.HasMode DeSeriModePerformValidation then
      (if ¬ lexicallyOrderedWithoutDups (pIns.1.map Prod.snd) then
        throw Err.orderViolation
      else pure ())
    else pure ())
  let pOutC ← readNum UInt16ByteSize pIns.2
  let _ ← (if deSeriMode.HasMode DeSeriModePerformValidation then
      (if pOutC.1 < MinOutputsCount then throw Err.minNotReached
       else if pOutC.1 > MaxOutputsCount then throw Err.maxExceeded
       else pure ())
    else pure ())
  let pOuts ← parseObjsSeg (fun bs => Output.deserialize bs deSeriMode)
    pOutC.1 pOutC.2
  let _ ← (if deSeriMode.HasMode DeSeriModePerformValidation then
      (if ¬ lexicallyOrderedWithoutDups (pOuts.1.map Prod.snd) then
        throw Err.orderViolation
      else pure ())
    else pure ())
  let _ ← (if deSeriMode.HasMode DeSeriModePerformValidation then
      (if (pOuts.1.map (fun q => q.1.deposit)).sum > TokenSupply then
        throw Err.outputsSumExceedsSupply
      else pure ())
    else pure ())
  let pL ← readNum UInt32ByteSize pOuts.2
  let pPay ← (if pL.1 = 0 then pure ((none : Option Indexation), pL.2)
    else do
      let pSeg ← readN pL.1 pL.2
      let pInd ← Indexation.deserialize pSeg.1 deSeriMode
      let _ ← (if pInd.2 ≠ [] then throw Err.lengthInvalid else pure ())
      pure (some pInd.1, pSeg.2))
  return ({ Inputs := pIns.1.map Prod.fst, Outputs := pOuts.1.map Prod.fst,
            Payload := pPay.1 }, pPay.2)

/-- Modelled from the spec: transaction essence serialization — the gated
validations, then each sub-entity's own serialization. -/
def TransactionEssence.serialize (e : TransactionEssence)
    (deSeriMode : DeSerializationMode) : Except Err Bytes := do
  let _ ← (if deSeriMode.HasMode DeSeriModePerformValidation then
      abortIf e.serValid
    else pure ())
  let ins ← serializeList (fun i => UTXOInput.serialize i deSeriMode) e.Inputs
  let outs ← serializeList (fun o => Output.serialize o deSeriMode) e.Outputs
  let pay ← (match e.Payload with
    | none => pure (leBytes 0 UInt32ByteSize)
    | some ind => do
        let pb ← ind.serialize deSeriMode
        pure (leBytes pb.length UInt32ByteSize ++ pb))
  return leBytes TransactionEssenceNormal SmallTypeDenotationByteSize ++
    leBytes e.Inputs.length UInt16ByteSize ++ ins.flatten ++
    leBytes e.Outputs.length UInt16ByteSize ++ outs.flatten ++ pay

/-- Modelled from the spec: `Transaction` — essence plus unlock blocks
(§3, §4.6). -/
structure Transaction where
  Essence : TransactionEssence
  UnlockBlocks : List UnlockBlock
deriving DecidableEq

/-- The public keys of the signature unlock blocks, in order. -/
def sigUnlockPubKeys (blocks : List UnlockBlock) : List (BytesN 32) :=
  blocks.filterMap (fun b => match b with
    | .signature s => some s.PublicKey
    | _ => none)

/-- Every reference unlock block must point to an earlier position holding
a signature unlock block (§4.6). -/
def unlockRefsValid (blocks : List UnlockBlock) : Bool :=
  (List.range blocks.length).all fun i =>
    match blocks.get? i with
    | some (.reference r) =>
        decide (r < i) &&
        (match blocks.get? r with
         | some (.signature _) => true
         | _ => false)
    | _ => true

/-- Modelled from the spec: the transaction-level unlock block validation
(§4.6): as many unlock blocks as inputs, signature unlock blocks unique
by public key, references point to prior signature blocks; any violation
is the `UnlockBlocksValidation` failure of §7. -/
def Transaction.unlockValid (t : Transaction) : Option Err :=
  if t.UnlockBlocks.length ≠ t.Essence.Inputs.length then
    some .unlockBlocksValidation
  else if ¬ (sigUnlockPubKeys t.UnlockBlocks).Nodup then
    some .unlockBlocksValidation
  else if ¬ unlockRefsValid t.UnlockBlocks then
    some .unlockBlocksValidation
  else none

/-- The bytes a transaction serializes to (§4.6): payload type 0, essence,
u16-prefixed unlock blocks. -/
def Transaction.emit (t : Transaction) : Bytes :=
  leBytes TransactionPayloadTypeID TypeDenotationByteSize ++
  t.Essence.emit ++ leBytes t.UnlockBlocks.length UInt16ByteSize ++
  (t.UnlockBlocks.map UnlockBlock.emit).flatten

/-- Modelled from the spec: transaction deserialization (§4.6). -/
def Transaction.deserialize (data : Bytes) (deSeriMode : DeSerializationMode) :
    Except Err (Transaction × Bytes) := do
  let _ ← (if deSeriMode.HasMode DeSeriModePerformValidation then
      abortIf (checkType data TransactionPayloadTypeID)
    else pure ())
  let p1 ← readN TypeDenotationByteSize data
  let pEss ← TransactionEssence.deserialize p1.2 deSeriMode
  let pUC ← readNum UInt16ByteSize pEss.2
  let _ ← (if deSeriMode.HasMode DeSeriModePerformValidation then
      (if pUC.1 < MinInputsCount then throw Err.minNotReached
       else if pUC.1 > MaxInputsCount then throw Err.maxExceeded
       else pure ())
    else pure ())
  let pUbs ← parseObjsSeg (fun bs => UnlockBlock.deserialize bs deSeriMode)
    pUC.1 pUC.2
  let _ ← (if deSeriMode.HasMode DeSeriModePerformValidation then
      abortIf (Transaction.unlockValid
        { Essence := pEss.1, UnlockBlocks := pUbs.1.map Prod.fst })
    else pure ())
  let _ ← doneCheck deSeriMode pUbs.2
  return ({ Essence := pEss.1, UnlockBlocks := pUbs.1.map Prod.fst }, pUbs.2)

/-- Modelled from the spec: transaction serialization (§4.6). -/
def Transaction.serialize (t : Transaction) (deSeriMode : DeSerializationMode) :
    Except Err Bytes := do
  let _ ← (if deSeriMode.HasMode DeSeriModePerformValidation then do
      abortIf t.unlockValid
      abortIf (if t.UnlockBlocks.length < MinInputsCount then
          some Err.minNotReached
        else if t.UnlockBlocks.length > MaxInputsCount then
          some Err.maxExceeded
        else none)
    else pure ())
  let eb ← t.Essence.serialize deSeriMode
  return leBytes TransactionPayloadTypeID TypeDenotationByteSize ++ eb ++
    leBytes t.UnlockBlocks.length UInt16ByteSize ++
    (t.UnlockBlocks.map UnlockBlock.emit).flatten

/-! ## Message (spec §4.9; message.go is absent from src/) -/

def MinParentsInAMessage : Nat := 1
def MaxParentsInAMessage : Nat := 8

/-- Modelled from the spec: the minimum serialized size of a message —
network ID (u64), parent count byte, one parent, payload length (u32),
nonce (u64). -/
def MessageBinSerializedMinSize : Nat :=
  UInt64ByteSize + OneByte + MessageIDLength + UInt32ByteSize + UInt64ByteSize

/-- Modelled from the spec: a message payload is a Transaction, Milestone
or Indexation (§4.9). -/
inductive Payload where
  | transaction (t : Transaction)
  | milestone (m : Milestone)
  | indexation (i : Indexation)
deriving DecidableEq

/-- The bytes of a payload (its own type tag leads). -/
def Payload.emit : Payload → Bytes
  | .transaction t => t.emit
  | .milestone m => m.emit
  | .indexation i => i.emit

/-- A payload's serializer dispatches on the variant. -/
def Payload.serialize : Payload → DeSerializationMode → Except Err Bytes
  | .transaction t, deSeriMode => Transaction.serialize t deSeriMode
  | .milestone m, deSeriMode => Milestone.serialize m deSeriMode
  | .indexation i, deSeriMode => Indexation.serialize i deSeriMode

/-- Modelled from the spec: the payload selector (§4.3, §4.9) applied to
the length-delimited payload segment: the leading u32 tag picks the
variant, whose deserializer must consume the segment exactly (the Go
reader checks consumed bytes against the announced payload length). -/
def parsePayload (sub : Bytes) (deSeriMode : DeSerializationMode) :
    Except Err Payload := do
  let tag := leVal (sub.take TypeDenotationByteSize)
  if tag = TransactionPayloadTypeID then do
    let p ← Transaction.deserialize sub deSeriMode
    let _ ← (if p.2 ≠ [] then throw Err.lengthInvalid else pure ())
    return Payload.transaction p.1
  else if tag = MilestonePayloadTypeID then do
    let p ← Milestone.deserialize sub deSeriMode
    let _ ← (if p.2 ≠ [] then throw Err.lengthInvalid else pure ())
    return Payload.milestone p.1
  else if tag = IndexationPayloadTypeID then do
    let p ← Indexation.deserialize sub deSeriMode
    let _ ← (if p.2 ≠ [] then throw Err.lengthInvalid else pure ())
    return Payload.indexation p.1
  else throw Err.unknownPayloadType

/-- Modelled from the spec: `Message` — network ID, 1..8 parents, optional
payload, nonce (§4.9). -/
structure Message where
  NetworkID : Nat
  Parents : List (BytesN 32)
  Payload : Option Payload
  Nonce : Nat
deriving DecidableEq

/-- The gated parent-list validation of message serialization (§4.9):
count 1..8, byte-wise lexical order, uniqueness. -/
def Message.serValid (msg : Message) : Option Err :=
  if msg.Parents.length < MinParentsInAMessage then some .minNotReached
  else if msg.Parents.length > MaxParentsInAMessage then some .maxExceeded
  else if ¬ lexicallyOrderedWithoutDups (msg.Parents.map Subtype.val) then
    some .orderViolation
  else none

/-- Modelled from the spec: message deserialization (§4.9): size cap on
the whole buffer and parent rules in validating mode; network ID,
byte-prefixed parents, u32-length-prefixed payload (0 = none), nonce;
trailing bytes are rejected in validating mode. -/
def Message.deserialize (data : Bytes) (deSeriMode : DeSerializationMode) :
    Except Err (Message × Bytes) := do
  let _ ← (if deSeriMode.HasMode DeSeriModePerformValidation then do
      abortIf (checkMinByteLength MessageBinSerializedMinSize data.length)
      abortIf (if data.length > MessageBinSerializedMaxSize then
          some Err.lengthInvalid
        else none)
    else pure ())
  let pNet ← readNum UInt64ByteSize data
  let pCnt ← readNum OneByte pNet.2
  let _ ← (if deSeriMode.HasMode DeSeriModePerformValidation then
      (if pCnt.1 < MinParentsInAMessage then throw Err.minNotReached
       else if pCnt.1 > MaxParentsInAMessage then throw Err.maxExceeded
       else pure ())
    else pure ())
  let pPar ← readChunks 32 pCnt.1 pCnt.2
  let _ ← (if deSeriMode.HasMode DeSeriModePerformValidation then
      (if ¬ lexicallyOrderedWithoutDups (pPar.1.map Subtype.val) then
        throw Err.orderViolation
      else pure ())
    else pure ())
  let pL ← readNum UInt32ByteSize pPar.2
  let pPay ← (if pL.1 = 0 then pure ((none : Option GIota.Payload), pL.2)
    else do
      let pSeg ← readN pL.1 pL.2
      let pl ← parsePayload pSeg.1 deSeriMode
      pure (some pl, pSeg.2))
  let pNon ← readNum UInt64ByteSize pPay.2
  let _ ← doneCheck deSeriMode pNon.2
  return ({ NetworkID := pNet.1, Parents := pPar.1, Payload := pPay.1,
            Nonce := pNon.1 }, pNon.2)

/-- Modelled from the spec: message serialization (§4.9): gated parent
rules, network ID, byte-prefixed parents, u32-length-prefixed payload
(serialized with the same mode), nonce, and the gated final size cap. -/
def Message.serialize (msg : Message) (deSeriMode : DeSerializationMode) :
    Except Err Bytes := do
  let _ ← (if deSeriMode.HasMode DeSeriModePerformValidation then
      abortIf msg.serValid
    else pure ())
  let pay ← (match msg.Payload with
    | none => pure (leBytes 0 UInt32ByteSize)
    | some p => do
        let pb ← p.serialize deSeriMode
        pure (leBytes pb.length UInt32ByteSize ++ pb))
  let out := leBytes msg.NetworkID UInt64ByteSize ++
    writeArraySlice OneByte 32 msg.Parents ++ pay ++
    leBytes msg.Nonce UInt64ByteSize
  let _ ← (if deSeriMode.HasMode DeSeriModePerformValidation then
      (if out.length > MessageBinSerializedMaxSize then throw Err.maxExceeded
       else pure ())
    else pure ())
  return out

/-! ## Claim-side reference definition for the C3 refinement -/

/-- Position of the first occurrence of `pk` in a list (the value the Go
`seenPubKeys` map reports for a duplicate). -/
def firstIndexOf (pk : MilestonePublicKey) : List MilestonePublicKey → Nat
  | [] => 0
  | k :: r => if k = pk then 0 else firstIndexOf pk r + 1

/-- Reference definition following the words of claim C3 (spec §4.7 step
2): walk the (publicKey, signature) pairs in index order with `earlier`
the already-processed prefix; at the first public key that repeats an
earlier one, is not applicable, or whose signature does not verify,
return the corresponding error with its position; otherwise succeed. -/
def verifySpecWalk
    (verify : MilestonePublicKey → Bytes → MilestoneSignature → Bool)
    (essence : Bytes) (sigs : List MilestoneSignature)
    (applicable : Finset MilestonePublicKey) :
    List MilestonePublicKey → List MilestonePublicKey → Option Err
  | _, [] => none
  | earlier, pk :: rest =>
      if pk ∈ earlier then
        some (.milestoneDuplicatedPublicKey (firstIndexOf pk earlier)
          earlier.length)
      else if pk ∉ applicable then some (.milestoneNonApplicablePublicKey pk)
      else if ¬ verify pk essence (sigs.getD earlier.length zeroSig) then
        some (.milestoneInvalidSignature earlier.length pk)
      else verifySpecWalk verify essence sigs applicable (earlier ++ [pk]) rest

/-- Reference definition following the words of claim C3, assembled for a
whole milestone: compute the essence, then walk all pairs from an empty
prefix. -/
def verifySignaturesClaimSpec
    (verify : MilestonePublicKey → Bytes → MilestoneSignature → Bool)
    (m : Milestone) (applicable : Finset MilestonePublicKey) : Option Err :=
  match m.Essence with
  | .error e => some e
  | .ok ess => verifySpecWalk verify ess m.Signatures applicable [] m.PublicKeys

/-! ## Concrete example values used by witnesses and counterexamples -/

/-- The all-zero 32-byte array. -/
def zero32 : BytesN 32 := ⟨List.replicate 32 0, by simp⟩

/-- A 32-byte array ending in 1 (lexically above `zero32`). -/
def one32 : BytesN 32 := ⟨List.replicate 31 0 ++ [1], by simp⟩

/-- A valid milestone with one public key and one signature. -/
def exampleMilestoneOneKey : Milestone :=
  { Index := 0, Timestamp := 0, Parent1 := zero32, Parent2 := zero32,
    InclusionMerkleProof := zero32, PublicKeys := [zero32],
    Signatures := [zeroSig] }

/-- A milestone whose two public keys are not in lexical order. -/
def msOutOfOrder : Milestone :=
  { Index := 0, Timestamp := 0, Parent1 := zero32, Parent2 := zero32,
    InclusionMerkleProof := zero32, PublicKeys := [one32, zero32],
    Signatures := [zeroSig, zeroSig] }

/-- The wire bytes of `msOutOfOrder`: payload type 1, index, timestamp,
both parents, merkle proof, two public keys out of lexical order, two
signatures. -/
def msOutOfOrderBytes : Bytes :=
  [1, 0, 0, 0] ++ List.replicate 12 0 ++ List.replicate 96 0 ++ [2] ++
  one32.val ++ zero32.val ++ [2] ++ List.replicate 128 0

/-- Milestone wire bytes with a zero public-key count. -/
def msEmptyKeysBytes : Bytes :=
  [1, 0, 0, 0] ++ List.replicate 108 0 ++ [0]

/-- Milestone wire bytes with one public key but two signatures. -/
def msCountMismatchBytes : Bytes :=
  [1, 0, 0, 0] ++ List.replicate 108 0 ++ [1] ++ List.replicate 32 0 ++
  [2] ++ List.replicate 128 0

/-! ## Round-trip lemmas for the primitives -/

theorem leBytes_length (n k : Nat) : (leBytes n k).length = k := by
  induction k generalizing n with
  | zero => rfl
  | succ k ih => simp [leBytes, ih]

theorem leVal_lt (bs : Bytes) : leVal bs < 256 ^ bs.length := by
  induction bs with
  | nil => simp [leVal]
  | cons b r ih =>
      simp only [leVal, List.length_cons, pow_succ]
      calc b.val + 256 * leVal r
          ≤ 255 + 256 * leVal r := by omega
        _ < 256 * (leVal r + 1) := by omega
        _ ≤ 256 * 256 ^ r.length := by
            have : leVal r + 1 ≤ 256 ^ r.length := ih
            exact Nat.mul_le_mul_left _ this
        _ = 256 ^ r.length * 256 := by ring

/-- Reading a byte string as a little-endian number and writing it back on
the same width reproduces the byte string. -/
theorem leBytes_leVal (bs : Bytes) : leBytes (leVal bs) bs.length = bs := by
  induction bs with
  | nil => rfl
  | cons b r ih =>
      simp only [leVal, List.length_cons, leBytes, List.cons.injEq]
      refine ⟨Fin.ext ?_, ?_⟩
      · simp only
        omega
      · have : (b.val + 256 * leVal r) / 256 = leVal r := by omega
        rw [this, ih]

theorem leVal_leBytes (n k : Nat) : leVal (leBytes n k) = n % 256 ^ k := by
  induction k generalizing n with
  | zero => simp [leBytes, leVal, Nat.mod_one]
  | succ k ih =>
      simp only [leBytes, leVal, ih]
      rw [pow_succ, mul_comm (256 ^ k) 256, Nat.mod_mul]

theorem ok_bind {ε α β : Type} (a : α) (f : α → Except ε β) :
    (Except.ok a >>= f : Except ε β) = f a := rfl

theorem error_bind {ε α β : Type} (e : ε) (f : α → Except ε β) :
    (Except.error e >>= f : Except ε β) = .error e := rfl

theorem readN_eq {n : Nat} {bs v r : Bytes} (h : readN n bs = .ok (v, r)) :
    bs = v ++ r ∧ v.length = n := by
  unfold readN at h
  split at h
  · cases h
    refine ⟨(List.take_append_drop n bs).symm, ?_⟩
    simp [List.length_take]
    omega
  · cases h

theorem readExact_eq {n : Nat} {bs r : Bytes} {v : BytesN n}
    (h : readExact n bs = .ok (v, r)) : bs = v.val ++ r := by
  unfold readExact at h
  split at h
  · cases h
    exact (List.take_append_drop n bs).symm
  · cases h

theorem readNum_eq {w : Nat} {bs r : Bytes} {v : Nat}
    (h : readNum w bs = .ok (v, r)) :
    bs = leBytes v w ++ r ∧ v < 256 ^ w := by
  unfold readNum at h
  cases hr : readN w bs with
  | error e => rw [hr, error_bind] at h; cases h
  | ok p =>
      obtain ⟨pre, rest⟩ := p
      rw [hr, ok_bind] at h
      simp only [pure, Except.pure, Except.ok.injEq, Prod.mk.injEq] at h
      obtain ⟨hv, hrest⟩ := h
      obtain ⟨hbs, hlen⟩ := readN_eq hr
      subst hv hrest
      constructor
      · rw [← hlen, leBytes_leVal, hbs]
      · rw [← hlen]; exact leVal_lt pre

theorem readVariableByteSlice_eq {w maxLen : Nat} {bs v r : Bytes}
    (h : readVariableByteSlice w maxLen bs = .ok (v, r)) :
    bs = leBytes v.length w ++ v ++ r ∧ v.length ≤ maxLen ∧ v.length < 256 ^ w := by
  unfold readVariableByteSlice at h
  cases hn : readNum w bs with
  | error e => rw [hn, error_bind] at h; cases h
  | ok p =>
      obtain ⟨l, r1⟩ := p
      rw [hn, ok_bind] at h
      simp only [gt_iff_lt] at h
      split at h
      · simp only [throw, throwThe, MonadExceptOf.throw, error_bind] at h
        cases h
      · obtain ⟨hbs, hlt⟩ := readNum_eq hn
        obtain ⟨hr1, hlen⟩ := readN_eq h
        subst hlen
        refine ⟨?_, by omega, hlt⟩
        rw [hbs, hr1, List.append_assoc]

theorem readChunks_eq {sz : Nat} {c : Nat} {bs r : Bytes} {xs : List (BytesN sz)}
    (h : readChunks sz c bs = .ok (xs, r)) :
    bs = (xs.map Subtype.val).flatten ++ r ∧ xs.length = c := by
  induction c generalizing bs xs with
  | zero =>
      unfold readChunks at h
      cases h
      simp
  | succ c ih =>
      unfold readChunks at h
      cases he : readExact sz bs with
      | error e => rw [he, error_bind] at h; cases h
      | ok p =>
          obtain ⟨a, r1⟩ := p
          rw [he, ok_bind] at h
          dsimp only at h
          cases hc : readChunks sz c r1 with
          | error e => rw [hc, error_bind] at h; cases h
          | ok q =>
              obtain ⟨as, r2⟩ := q
              rw [hc, ok_bind] at h
              simp only [pure, Except.pure, Except.ok.injEq, Prod.mk.injEq] at h
              obtain ⟨hxs, hr⟩ := h
              subst hxs hr
              obtain ⟨h1, h2⟩ := ih hc
              refine ⟨?_, by simp [h2]⟩
              rw [readExact_eq he, h1]
              simp

theorem bind_assoc_except {ε α β γ : Type} (m : Except ε α)
    (f : α → Except ε β) (g : β → Except ε γ) :
    (m >>= f) >>= g = m >>= fun a => f a >>= g := by
  cases m <;> rfl

theorem abortIf_none : abortIf none = .ok () := rfl

theorem abortIf_some (e : Err) : abortIf (some e) = .error e := rfl

theorem throw_eq (e : Err) {β : Type} : (throw e : Except Err β) = .error e := rfl

theorem hasMode_pv :
    DeSeriModePerformValidation.HasMode DeSeriModePerformValidation = true := rfl

theorem hasMode_nv :
    DeSeriModeNoValidation.HasMode DeSeriModePerformValidation = false := rfl

theorem checkMinByteLength_none {minLen len : Nat}
    (h : checkMinByteLength minLen len = none) : minLen ≤ len := by
  unfold checkMinByteLength at h
  split at h
  · cases h
  · omega

theorem checkType_none {data : Bytes} {t : Nat} (h : checkType data t = none) :
    4 ≤ data.length ∧ leVal (data.take 4) = t := by
  unfold checkType at h
  split at h
  · cases h
  · split at h
    · cases h
    · constructor
      · omega
      · omega

theorem checkTypeByte_none {data : Bytes} {t : Nat}
    (h : checkTypeByte data t = none) :
    ∃ b r, data = b :: r ∧ b.val = t := by
  unfold checkTypeByte at h
  split at h
  · cases h
  · next b r =>
      split at h
      · cases h
      · exact ⟨b, r, rfl, by omega⟩

theorem unit_bind_ok {α : Type} {t : Except Err PUnit}
    {k : PUnit → Except Err α} {b : α} (h : (t >>= k) = .ok b) :
    t = .ok ⟨⟩ ∧ k ⟨⟩ = .ok b := by
  cases t with
  | error e => rw [error_bind] at h; cases h
  | ok u => cases u; rw [ok_bind] at h; exact ⟨rfl, h⟩

theorem ite_throw_ok {c : Prop} [Decidable c] {e : Err}
    (h : (if c then throw e else pure PUnit.unit : Except Err PUnit) = .ok ⟨⟩) :
    ¬ c := by
  intro hc
  rw [if_pos hc] at h
  cases h

theorem doneCheck_pv_ok {rest : Bytes}
    (h : doneCheck DeSeriModePerformValidation rest = .ok ()) : rest = [] := by
  unfold doneCheck at h
  split at h
  · cases h
  · next hc =>
      simp only [hasMode_pv, Bool.true_and, Bool.not_eq_true', Bool.not_eq_false] at hc
      exact List.isEmpty_iff.mp hc

theorem readArraySlice_eq {w sz : Nat} {bs r : Bytes} {xs : List (BytesN sz)}
    (h : readArraySlice w sz bs = .ok (xs, r)) :
    bs = writeArraySlice w sz xs ++ r ∧ xs.length < 256 ^ w := by
  unfold readArraySlice at h
  cases hn : readNum w bs with
  | error e => rw [hn, error_bind] at h; cases h
  | ok p =>
      obtain ⟨c, r1⟩ := p
      rw [hn, ok_bind] at h
      obtain ⟨hbs, hlt⟩ := readNum_eq hn
      obtain ⟨h1, h2⟩ := readChunks_eq h
      subst h2
      refine ⟨?_, hlt⟩
      rw [writeArraySlice, hbs, h1, List.append_assoc]

theorem abortIf_ok_none {x : Option Err} (h : abortIf x = .ok ⟨⟩) :
    x = none := by
  cases x with
  | none => rfl
  | some e => cases h

theorem abortIf_seq_ok {a b : Option Err}
    (h : (do abortIf a; abortIf b : Except Err PUnit) = .ok ⟨⟩) :
    a = none ∧ b = none := by
  cases a with
  | some e => cases h
  | none =>
      rw [show (do abortIf none; abortIf b : Except Err PUnit) = abortIf b
        from rfl] at h
      exact ⟨rfl, abortIf_ok_none h⟩

theorem serializeList_eq {α : Type} {f : α → Except Err Bytes}
    {emit : α → Bytes} {xs : List α}
    (h : ∀ x ∈ xs, f x = .ok (emit x)) :
    serializeList f xs = .ok (xs.map emit) := by
  induction xs with
  | nil => rfl
  | cons x xs ih =>
      simp only [serializeList]
      rw [h x (List.mem_cons_self x xs), ok_bind,
        ih (fun y hy => h y (List.mem_cons_of_mem x hy)), ok_bind]
      rfl

theorem parseObjsSeg_eq {α : Type} {p : Bytes → Except Err (α × Bytes)}
    {emit : α → Bytes} {Q : α → Prop}
    (hp : ∀ bs x r, p bs = .ok (x, r) → Q x ∧ bs = emit x ++ r) :
    ∀ {c : Nat} {bs rest : Bytes} {prs : List (α × Bytes)},
    parseObjsSeg p c bs = .ok (prs, rest) →
      bs = (prs.map Prod.snd).flatten ++ rest ∧ prs.length = c ∧
      ∀ pr ∈ prs, Q pr.1 ∧ pr.2 = emit pr.1 := by
  intro c
  induction c with
  | zero =>
      intro bs rest prs h
      cases h
      simp
  | succ c ih =>
      intro bs rest prs h
      unfold parseObjsSeg at h
      cases hpa : p bs with
      | error e => rw [hpa, error_bind] at h; cases h
      | ok pa =>
          obtain ⟨x, r1⟩ := pa
          rw [hpa, ok_bind] at h
          dsimp only at h
          cases hrec : parseObjsSeg p c r1 with
          | error e => rw [hrec, error_bind] at h; cases h
          | ok prsr =>
              obtain ⟨prs', rest'⟩ := prsr
              rw [hrec, ok_bind] at h
              simp only [pure, Except.pure, Except.ok.injEq, Prod.mk.injEq] at h
              obtain ⟨hprs, hrest⟩ := h
              subst hprs hrest
              obtain ⟨hQ, hbs⟩ := hp bs x r1 hpa
              obtain ⟨hbs', hlen', hall'⟩ := ih hrec
              have hseg : bs.take (bs.length - r1.length) = emit x := by
                rw [hbs]
                have : (emit x ++ r1).length - r1.length = (emit x).length := by
                  simp
                rw [this, List.take_left]
              constructor
              · simp only [List.map_cons, List.flatten_cons, hseg]
                rw [hbs, hbs']
                simp [List.append_assoc]
              constructor
              · simp [hlen']
              · intro pr hpr
                rcases List.mem_cons.mp hpr with h1 | h1
                · subst h1
                  exact ⟨hQ, hseg⟩
                · exact hall' pr h1

/-! ## Leaf entity parse inversions -/

theorem leBytes_one_val {n : Nat} (b : Byte) (hb : b.val = n) (hn : n < 256) :
    leBytes n 1 = [b] := by
  simp only [leBytes]
  congr 1
  exact Fin.ext (by simp [Nat.mod_eq_of_lt hn, hb])

theorem readAddress_inv {mode : DeSerializationMode} {bs r : Bytes}
    {a : Address} (h : readAddress bs mode = .ok (a, r)) :
    bs = a.emit ++ r := by
  unfold readAddress at h
  obtain ⟨-, h⟩ := unit_bind_ok h
  cases bs with
  | nil => dsimp only at h; rw [throw_eq] at h; cases h
  | cons b rr =>
      dsimp only at h
      by_cases hb : b.val = AddressEd25519
      · rw [if_pos hb] at h
        cases hre : readExact 32 rr with
        | error e => rw [hre, error_bind] at h; cases h
        | ok p =>
            rw [hre, ok_bind] at h
            simp only [pure, Except.pure, Except.ok.injEq, Prod.mk.injEq] at h
            obtain ⟨ha, hr⟩ := h
            subst ha hr
            rw [readExact_eq hre]
            simp only [Address.emit, SmallTypeDenotationByteSize,
              leBytes_one_val b hb (by decide)]
            rfl
      · rw [if_neg hb, throw_eq] at h
        cases h

theorem UTXOInput_deserialize_inv {bs r : Bytes} {i : UTXOInput}
    (h : UTXOInput.deserialize bs DeSeriModePerformValidation = .ok (i, r)) :
    UTXOInput.serialize i DeSeriModePerformValidation = .ok i.emit ∧
    bs = i.emit ++ r := by
  unfold UTXOInput.deserialize at h
  cases bs with
  | nil => dsimp only at h; rw [throw_eq] at h; cases h
  | cons b rr =>
      dsimp only at h
      by_cases hb : b.val = InputUTXO
      · rw [if_pos hb] at h
        cases htx : readExact 32 rr with
        | error e => rw [htx, error_bind] at h; cases h
        | ok pTx =>
        rw [htx, ok_bind] at h
        cases hix : readNum UInt16ByteSize pTx.2 with
        | error e => rw [hix, error_bind] at h; cases h
        | ok pIdx =>
        rw [hix, ok_bind] at h
        obtain ⟨hgrd, h⟩ := unit_bind_ok h
        simp only [hasMode_pv, if_true] at hgrd
        have hbound : ¬ pIdx.1 > RefUTXOIndexMax := ite_throw_ok hgrd
        simp only [pure, Except.pure, Except.ok.injEq, Prod.mk.injEq] at h
        obtain ⟨hi, hr⟩ := h
        subst hi hr
        constructor
        · unfold UTXOInput.serialize
          simp only [hasMode_pv, if_true]
          rw [if_neg hbound, pure_bind]
          rfl
        · rw [readExact_eq htx]
          obtain ⟨hrest, -⟩ := readNum_eq hix
          rw [hrest]
          simp only [UTXOInput.emit, SmallTypeDenotationByteSize,
            leBytes_one_val b hb (by decide)]
          simp [List.append_assoc]
      · rw [if_neg hb, throw_eq] at h
        cases h

theorem Output_deserialize_inv {bs r : Bytes} {o : Output}
    (h : Output.deserialize bs DeSeriModePerformValidation = .ok (o, r)) :
    Output.serialize o DeSeriModePerformValidation = .ok o.emit ∧
    bs = o.emit ++ r := by
  unfold Output.deserialize at h
  cases bs with
  | nil => dsimp only at h; rw [throw_eq] at h; cases h
  | cons b rr =>
      dsimp only at h
      have main : ∀ (mk : Address → Nat → Output),
          (∀ addr amt, (mk addr amt).emit =
            leBytes (b.val) SmallTypeDenotationByteSize ++ addr.emit ++
            leBytes amt UInt64ByteSize) →
          (do
            let pAddr ← readAddress rr DeSeriModePerformValidation
            let pAmt ← readNum UInt64ByteSize pAddr.2
            let _ ← (if DeSerializationMode.HasMode DeSeriModePerformValidation
                DeSeriModePerformValidation = true then
                abortIf (outputAmountValidator (mk pAddr.1 pAmt.1))
              else pure ())
            return (mk pAddr.1 pAmt.1, pAmt.2) :
              Except Err (Output × Bytes)) = .ok (o, r) →
          Output.serialize o DeSeriModePerformValidation = .ok o.emit ∧
          b :: rr = o.emit ++ r := by
        intro mk hemit h
        cases haddr : readAddress rr DeSeriModePerformValidation with
        | error e => rw [haddr, error_bind] at h; cases h
        | ok pAddr =>
        rw [haddr, ok_bind] at h
        cases hamt : readNum UInt64ByteSize pAddr.2 with
        | error e => rw [hamt, error_bind] at h; cases h
        | ok pAmt =>
        rw [hamt, ok_bind] at h
        obtain ⟨hgrd, h⟩ := unit_bind_ok h
        simp only [hasMode_pv, if_true] at hgrd
        have hval : outputAmountValidator (mk pAddr.1 pAmt.1) = none :=
          abortIf_ok_none hgrd
        simp only [pure, Except.pure, Except.ok.injEq, Prod.mk.injEq] at h
        obtain ⟨ho, hr⟩ := h
        subst ho hr
        constructor
        · unfold Output.serialize
          simp only [hasMode_pv, if_true]
          rw [hval]
          rfl
        · rw [readAddress_inv haddr]
          obtain ⟨hrest, -⟩ := readNum_eq hamt
          rw [hrest, hemit]
          have : leBytes b.val SmallTypeDenotationByteSize = [b] :=
            leBytes_one_val b rfl b.isLt
          rw [this]
          simp [List.append_assoc]
      by_cases hb0 : b.val = OutputSigLockedSingleOutput
      · rw [if_pos hb0] at h
        exact main (fun a n => .sigLockedSingleOutput a n)
          (fun addr amt => by simp [Output.emit, hb0]) h
      · rw [if_neg hb0] at h
        by_cases hb1 : b.val = OutputSigLockedDustAllowanceOutput
        · rw [if_pos hb1] at h
          exact main (fun a n => .sigLockedDustAllowanceOutput a n)
            (fun addr amt => by simp [Output.emit, hb1]) h
        · rw [if_neg hb1, throw_eq] at h
          cases h

theorem UnlockBlock_deserialize_inv {mode : DeSerializationMode}
    {bs r : Bytes} {u : UnlockBlock}
    (h : UnlockBlock.deserialize bs mode = .ok (u, r)) :
    bs = u.emit ++ r := by
  unfold UnlockBlock.deserialize at h
  cases bs with
  | nil => dsimp only at h; rw [throw_eq] at h; cases h
  | cons b rr =>
      dsimp only at h
      by_cases hb0 : b.val = UnlockBlockSignature
      · rw [if_pos hb0] at h
        cases rr with
        | nil => dsimp only at h; rw [throw_eq] at h; cases h
        | cons sb sr =>
            dsimp only at h
            by_cases hsb : sb.val = SignatureEd25519
            · rw [if_pos hsb] at h
              cases hpk : readExact 32 sr with
              | error e => rw [hpk, error_bind] at h; cases h
              | ok pPk =>
              rw [hpk, ok_bind] at h
              cases hsg : readExact 64 pPk.2 with
              | error e => rw [hsg, error_bind] at h; cases h
              | ok pSg =>
              rw [hsg, ok_bind] at h
              simp only [pure, Except.pure, Except.ok.injEq,
                Prod.mk.injEq] at h
              obtain ⟨hu, hr⟩ := h
              subst hu hr
              rw [readExact_eq hpk, readExact_eq hsg]
              simp only [UnlockBlock.emit, SmallTypeDenotationByteSize,
                leBytes_one_val b hb0 (by decide),
                leBytes_one_val sb hsb (by decide)]
              simp [List.append_assoc]
            · rw [if_neg hsb, throw_eq] at h
              cases h
      · rw [if_neg hb0] at h
        by_cases hb1 : b.val = UnlockBlockReference
        · rw [if_pos hb1] at h
          cases hrf : readNum UInt16ByteSize rr with
          | error e => rw [hrf, error_bind] at h; cases h
          | ok pRef =>
          rw [hrf, ok_bind] at h
          simp only [pure, Except.pure, Except.ok.injEq, Prod.mk.injEq] at h
          obtain ⟨hu, hr⟩ := h
          subst hu hr
          obtain ⟨hrest, -⟩ := readNum_eq hrf
          rw [hrest]
          simp only [UnlockBlock.emit, SmallTypeDenotationByteSize,
            leBytes_one_val b hb1 (by decide)]
          simp [List.append_assoc]
        · rw [if_neg hb1, throw_eq] at h
          cases h

/-! ## Indexation round-trip -/

theorem Indexation.serialize_pv_ok {u : Indexation}
    (h1 : IndexationIndexMinLength ≤ u.Index.length)
    (h2 : u.Index.length ≤ IndexationIndexMaxLength) :
    Indexation.serialize u DeSeriModePerformValidation = .ok u.emit := by
  unfold Indexation.serialize
  simp only [hasMode_pv, if_true, gt_iff_lt]
  rw [if_neg (show ¬ IndexationIndexMaxLength < u.Index.length by
        have hx : IndexationIndexMaxLength = 64 := rfl
        omega),
      if_neg (show ¬ u.Index.length < IndexationIndexMinLength by
        have hx : IndexationIndexMinLength = 1 := rfl
        omega)]
  rfl

theorem Indexation.deserialize_inv {data rest : Bytes} {u : Indexation}
    (h : Indexation.deserialize data DeSeriModePerformValidation = .ok (u, rest)) :
    rest = [] ∧ data = u.emit ∧
    IndexationIndexMinLength ≤ u.Index.length ∧
    u.Index.length ≤ IndexationIndexMaxLength := by
  unfold Indexation.deserialize at h
  simp only [hasMode_pv, if_true, bind_assoc_except] at h
  cases hc1 : checkMinByteLength IndexationBinSerializedMinSize data.length with
  | some e => rw [hc1, abortIf_some, error_bind] at h; cases h
  | none =>
  rw [hc1, abortIf_none, ok_bind] at h
  cases hc2 : checkType data IndexationPayloadTypeID with
  | some e => rw [hc2, abortIf_some, error_bind] at h; cases h
  | none =>
  rw [hc2, abortIf_none, ok_bind] at h
  cases hr1 : readN TypeDenotationByteSize data with
  | error e => rw [hr1, error_bind] at h; cases h
  | ok p1 =>
  rw [hr1, ok_bind] at h
  cases hr2 : readVariableByteSlice UInt16ByteSize IndexationIndexMaxLength p1.2 with
  | error e => rw [hr2, error_bind] at h; cases h
  | ok p2 =>
  rw [hr2, ok_bind] at h
  by_cases hmin : p2.1.length < IndexationIndexMinLength
  · rw [if_pos hmin, throw_eq, error_bind] at h; cases h
  rw [if_neg hmin] at h
  simp only [pure_bind] at h
  cases hr3 : readVariableByteSlice UInt32ByteSize MessageBinSerializedMaxSize p2.2 with
  | error e => rw [hr3, error_bind] at h; cases h
  | ok p3 =>
  rw [hr3, ok_bind] at h
  cases hdn : doneCheck DeSeriModePerformValidation p3.2 with
  | error e => rw [hdn, error_bind] at h; cases h
  | ok uu =>
  rw [hdn, ok_bind] at h
  simp only [pure, Except.pure, Except.ok.injEq, Prod.mk.injEq] at h
  obtain ⟨hu, hrest⟩ := h
  obtain ⟨hbs1, hlen1⟩ := readN_eq hr1
  obtain ⟨hbs2, hle2, hlt2⟩ := readVariableByteSlice_eq hr2
  obtain ⟨hbs3, _, _⟩ := readVariableByteSlice_eq hr3
  obtain ⟨_, htype⟩ := checkType_none hc2
  have hrest0 : p3.2 = [] := doneCheck_pv_ok (by cases uu; exact hdn)
  subst hu
  have hminval : IndexationIndexMinLength = 1 := rfl
  refine ⟨hrest ▸ hrest0, ?_, by dsimp only; omega, by dsimp only; exact hle2⟩
  · -- data = emit ++ []
    have hlen4 : p1.1.length = 4 := hlen1
    have htake : data.take 4 = p1.1 := by
      rw [hbs1, ← hlen4, List.take_left]
    have htybytes : p1.1 = leBytes IndexationPayloadTypeID TypeDenotationByteSize := by
      calc p1.1 = leBytes (leVal p1.1) 4 := by
            rw [← hlen4]; exact (leBytes_leVal p1.1).symm
        _ = leBytes IndexationPayloadTypeID TypeDenotationByteSize := by
            rw [← htake, htype]; rfl
    rw [Indexation.emit, writeVariableByteSlice, writeVariableByteSlice]
    rw [hbs1, htybytes, hbs2, hbs3, hrest0]
    simp [List.append_assoc]

/-! ## Milestone round-trip -/

theorem readN4_type_eq {data v r : Bytes} {t : Nat}
    (hr : readN TypeDenotationByteSize data = .ok (v, r))
    (ht : leVal (data.take 4) = t) :
    v = leBytes t TypeDenotationByteSize := by
  obtain ⟨hbs, hlen⟩ := readN_eq hr
  have hlen4 : v.length = 4 := hlen
  have htake : data.take 4 = v := by
    rw [hbs, ← hlen4, List.take_left]
  calc v = leBytes (leVal v) 4 := by
        rw [← hlen4]; exact (leBytes_leVal v).symm
    _ = leBytes t TypeDenotationByteSize := by rw [← htake, ht]; rfl

theorem Milestone_deserialize_inv {data rest : Bytes} {m : Milestone}
    (h : Milestone.deserialize data DeSeriModePerformValidation =
      .ok (m, rest)) :
    rest = [] ∧ data = m.emit ∧
    Milestone.serialize m DeSeriModePerformValidation = .ok m.emit := by
  unfold Milestone.deserialize at h
  obtain ⟨hgate, h⟩ := unit_bind_ok h
  simp only [hasMode_pv, if_true] at hgate
  obtain ⟨-, htype⟩ := abortIf_seq_ok hgate
  obtain ⟨-, htval⟩ := checkType_none htype
  cases hr1 : readN TypeDenotationByteSize data with
  | error e => rw [hr1, error_bind] at h; cases h
  | ok p1 =>
  rw [hr1, ok_bind] at h
  cases hr2 : readNum UInt32ByteSize p1.2 with
  | error e => rw [hr2, error_bind] at h; cases h
  | ok pIdx =>
  rw [hr2, ok_bind] at h
  cases hr3 : readNum UInt64ByteSize pIdx.2 with
  | error e => rw [hr3, error_bind] at h; cases h
  | ok pTs =>
  rw [hr3, ok_bind] at h
  cases hr4 : readExact 32 pTs.2 with
  | error e => rw [hr4, error_bind] at h; cases h
  | ok pP1 =>
  rw [hr4, ok_bind] at h
  cases hr5 : readExact 32 pP1.2 with
  | error e => rw [hr5, error_bind] at h; cases h
  | ok pP2 =>
  rw [hr5, ok_bind] at h
  cases hr6 : readExact 32 pP2.2 with
  | error e => rw [hr6, error_bind] at h; cases h
  | ok pMr =>
  rw [hr6, ok_bind] at h
  cases hr7 : readArraySlice OneByte 32 pMr.2 with
  | error e => rw [hr7, error_bind] at h; cases h
  | ok pPks =>
  rw [hr7, ok_bind] at h
  obtain ⟨hS1, h⟩ := unit_bind_ok h
  have hne0 : ¬ (pPks.1.length = 0) := ite_throw_ok hS1
  obtain ⟨hS2, h⟩ := unit_bind_ok h
  simp only [hasMode_pv, if_true] at hS2
  have hlex : ¬ ¬ lexicallyOrderedWithoutDups (pPks.1.map Subtype.val) = true :=
    ite_throw_ok hS2
  rw [not_not] at hlex
  cases hr8 : readArraySlice OneByte 64 pPks.2 with
  | error e => rw [hr8, error_bind] at h; cases h
  | ok pSigs =>
  rw [hr8, ok_bind] at h
  obtain ⟨hS3, h⟩ := unit_bind_ok h
  have hcnt : ¬ (pPks.1.length ≠ pSigs.1.length) := ite_throw_ok hS3
  obtain ⟨hS4, h⟩ := unit_bind_ok h
  have hrest0 : pSigs.2 = [] := doneCheck_pv_ok hS4
  simp only [pure, Except.pure, Except.ok.injEq, Prod.mk.injEq] at h
  obtain ⟨hm, hr⟩ := h
  subst hm hr
  obtain ⟨hbs1, -⟩ := readN_eq hr1
  have hty : p1.1 = leBytes MilestonePayloadTypeID TypeDenotationByteSize :=
    readN4_type_eq hr1 htval
  obtain ⟨hbs2, hlt2⟩ := readNum_eq hr2
  obtain ⟨hbs3, hlt3⟩ := readNum_eq hr3
  have hbs4 := readExact_eq hr4
  have hbs5 := readExact_eq hr5
  have hbs6 := readExact_eq hr6
  obtain ⟨hbs7, hcnt7⟩ := readArraySlice_eq hr7
  obtain ⟨hbs8, hcnt8⟩ := readArraySlice_eq hr8
  refine ⟨hrest0, ?_, ?_⟩
  · rw [Milestone.emit]
    dsimp only
    rw [hbs1, hty, hbs2, hbs3, hbs4, hbs5, hbs6, hbs7, hbs8, hrest0]
    simp [List.append_assoc]
  · unfold Milestone.serialize
    simp only [hasMode_pv, if_true]
    have hvalid : Milestone.serValid
        { Index := pIdx.1, Timestamp := pTs.1, Parent1 := pP1.1,
          Parent2 := pP2.1, InclusionMerkleProof := pMr.1,
          PublicKeys := pPks.1, Signatures := pSigs.1 } = none := by
      unfold Milestone.serValid
      dsimp only
      rw [if_neg (by rw [not_not]; exact hlex),
          if_neg (show ¬ pPks.1.length > MaxPublicKeysInAMilestone by
            have hv : MaxPublicKeysInAMilestone = 255 := rfl
            have : (256 : Nat) ^ OneByte = 256 := by decide
            omega),
          if_neg (show ¬ pPks.1.length < MinPublicKeysInAMilestone by
            have hv : MinPublicKeysInAMilestone = 1 := rfl
            omega),
          if_neg (show ¬ pSigs.1.length > MaxSignaturesInAMilestone by
            have hv : MaxSignaturesInAMilestone = 255 := rfl
            have : (256 : Nat) ^ OneByte = 256 := by decide
            omega),
          if_neg (show ¬ pSigs.1.length < MinSignaturesInAMilestone by
            have hv : MinSignaturesInAMilestone = 1 := rfl
            omega)]
    rw [hvalid]
    rfl

/-! ## Transaction essence round-trip -/

theorem ite2_throw_ok {c1 c2 : Prop} [Decidable c1] [Decidable c2]
    {e1 e2 : Err}
    (h : (if c1 then throw e1 else if c2 then throw e2
      else pure PUnit.unit : Except Err PUnit) = .ok ⟨⟩) :
    ¬ c1 ∧ ¬ c2 := by
  by_cases h1 : c1
  · rw [if_pos h1] at h; cases h
  · rw [if_neg h1] at h
    by_cases h2 : c2
    · rw [if_pos h2] at h; cases h
    · exact ⟨h1, h2⟩

theorem map_snd_eq_map_emit {α : Type} {emit : α → Bytes}
    {prs : List (α × Bytes)} (h : ∀ pr ∈ prs, pr.2 = emit pr.1) :
    prs.map Prod.snd = (prs.map Prod.fst).map emit := by
  induction prs with
  | nil => rfl
  | cons p ps ih =>
      simp only [List.map_cons, List.map_map]
      rw [h p (List.mem_cons_self p ps)]
      have := ih (fun q hq => h q (List.mem_cons_of_mem p hq))
      rw [List.map_map] at this
      rw [this]

theorem TransactionEssence_deserialize_inv {data rest : Bytes}
    {e : TransactionEssence}
    (h : TransactionEssence.deserialize data DeSeriModePerformValidation =
      .ok (e, rest)) :
    data = e.emit ++ rest ∧
    TransactionEssence.serialize e DeSeriModePerformValidation =
      .ok e.emit := by
  unfold TransactionEssence.deserialize at h
  cases hr1 : readNum SmallTypeDenotationByteSize data with
  | error er => rw [hr1, error_bind] at h; cases h
  | ok pTy =>
  rw [hr1, ok_bind] at h
  obtain ⟨hS0, h⟩ := unit_bind_ok h
  have hty0 : ¬ (pTy.1 ≠ TransactionEssenceNormal) := ite_throw_ok hS0
  rw [not_not] at hty0
  cases hr2 : readNum UInt16ByteSize pTy.2 with
  | error er => rw [hr2, error_bind] at h; cases h
  | ok pInC =>
  rw [hr2, ok_bind] at h
  obtain ⟨hS1, h⟩ := unit_bind_ok h
  simp only [hasMode_pv, if_true] at hS1
  obtain ⟨hInMin, hInMax⟩ := ite2_throw_ok hS1
  cases hr3 : parseObjsSeg
      (fun bs => UTXOInput.deserialize bs DeSeriModePerformValidation)
      pInC.1 pInC.2 with
  | error er => rw [hr3, error_bind] at h; cases h
  | ok pIns =>
  rw [hr3, ok_bind] at h
  obtain ⟨hS2, h⟩ := unit_bind_ok h
  simp only [hasMode_pv, if_true] at hS2
  have hInLex := ite_throw_ok hS2
  rw [not_not] at hInLex
  cases hr4 : readNum UInt16ByteSize pIns.2 with
  | error er => rw [hr4, error_bind] at h; cases h
  | ok pOutC =>
  rw [hr4, ok_bind] at h
  obtain ⟨hS3, h⟩ := unit_bind_ok h
  simp only [hasMode_pv, if_true] at hS3
  obtain ⟨hOutMin, hOutMax⟩ := ite2_throw_ok hS3
  cases hr5 : parseObjsSeg
      (fun bs => Output.deserialize bs DeSeriModePerformValidation)
      pOutC.1 pOutC.2 with
  | error er => rw [hr5, error_bind] at h; cases h
  | ok pOuts =>
  rw [hr5, ok_bind] at h
  obtain ⟨hS4, h⟩ := unit_bind_ok h
  simp only [hasMode_pv, if_true] at hS4
  have hOutLex := ite_throw_ok hS4
  rw [not_not] at hOutLex
  obtain ⟨hS5, h⟩ := unit_bind_ok h
  simp only [hasMode_pv, if_true] at hS5
  have hSum := ite_throw_ok hS5
  cases hr6 : readNum UInt32ByteSize pOuts.2 with
  | error er => rw [hr6, error_bind] at h; cases h
  | ok pL =>
  rw [hr6, ok_bind] at h
  -- element facts
  obtain ⟨hInBs, hInLen, hInAll⟩ := parseObjsSeg_eq
    (fun bs x r hx => UTXOInput_deserialize_inv hx) hr3
  obtain ⟨hOutBs, hOutLen, hOutAll⟩ := parseObjsSeg_eq
    (fun bs x r hx => Output_deserialize_inv hx) hr5
  have hInSegs : pIns.1.map Prod.snd =
      (pIns.1.map Prod.fst).map UTXOInput.emit :=
    map_snd_eq_map_emit (fun pr hpr => (hInAll pr hpr).2)
  have hOutSegs : pOuts.1.map Prod.snd =
      (pOuts.1.map Prod.fst).map Output.emit :=
    map_snd_eq_map_emit (fun pr hpr => (hOutAll pr hpr).2)
  have hSum' : ¬ ((pOuts.1.map Prod.fst).map Output.deposit).sum > TokenSupply := by
    intro hgt
    apply hSum
    rw [List.map_map] at hgt
    exact hgt
  -- payload branch
  by_cases hpl : pL.1 = 0
  · rw [if_pos hpl, pure_bind] at h
    simp only [pure, Except.pure, Except.ok.injEq, Prod.mk.injEq] at h
    obtain ⟨he, hrest⟩ := h
    subst he hrest
    obtain ⟨hbs1, -⟩ := readNum_eq hr1
    obtain ⟨hbs2, hlt2⟩ := readNum_eq hr2
    obtain ⟨hbs4, hlt4⟩ := readNum_eq hr4
    obtain ⟨hbs6, hlt6⟩ := readNum_eq hr6
    constructor
    · rw [TransactionEssence.emit]
      dsimp only
      rw [hbs1, hty0, hbs2, hInBs, hInSegs, hbs4, hOutBs, hOutSegs, hbs6, hpl]
      simp only [List.length_map, hInLen, hOutLen]
      simp [List.append_assoc]
    · unfold TransactionEssence.serialize
      simp only [hasMode_pv, if_true]
      have hvalid : TransactionEssence.serValid
          { Inputs := pIns.1.map Prod.fst, Outputs := pOuts.1.map Prod.fst,
            Payload := none } = none := by
        have hc1 : ¬ (pIns.1.map Prod.fst).length < MinInputsCount := by
          simp only [List.length_map, hInLen]
          have hv : MinInputsCount = 1 := rfl
          omega
        have hc2 : ¬ (pIns.1.map Prod.fst).length > MaxInputsCount := by
          simp only [List.length_map, hInLen]
          have hv : MaxInputsCount = 127 := rfl
          omega
        have hc3 : ¬ ¬ lexicallyOrderedWithoutDups
            (((pIns.1.map Prod.fst).map UTXOInput.emit)) = true := by
          rw [← hInSegs]
          exact fun hh => hh hInLex
        have hc4 : ¬ (pOuts.1.map Prod.fst).length < MinOutputsCount := by
          simp only [List.length_map, hOutLen]
          have hv : MinOutputsCount = 1 := rfl
          omega
        have hc5 : ¬ (pOuts.1.map Prod.fst).length > MaxOutputsCount := by
          simp only [List.length_map, hOutLen]
          have hv : MaxOutputsCount = 127 := rfl
          omega
        have hc6 : ¬ ¬ lexicallyOrderedWithoutDups
            (((pOuts.1.map Prod.fst).map Output.emit)) = true := by
          rw [← hOutSegs]
          exact fun hh => hh hOutLex
        unfold TransactionEssence.serValid
        dsimp only
        rw [if_neg hc1, if_neg hc2, if_neg hc3, if_neg hc4, if_neg hc5,
          if_neg hc6, if_neg hSum']
      rw [hvalid, abortIf_none, ok_bind,
        serializeList_eq (fun x hx => by
          obtain ⟨pr, hpr, hfst⟩ := List.mem_map.mp hx
          rw [← hfst]
          exact (hInAll pr hpr).1), ok_bind,
        serializeList_eq (fun x hx => by
          obtain ⟨pr, hpr, hfst⟩ := List.mem_map.mp hx
          rw [← hfst]
          exact (hOutAll pr hpr).1), ok_bind,
        pure_bind]
      rw [TransactionEssence.emit]
      dsimp only
      simp only [List.length_map, hInLen, hOutLen]
      rfl
  · rw [if_neg hpl] at h
    cases hr7 : readN pL.1 pL.2 with
    | error er => rw [hr7, error_bind] at h; cases h
    | ok pSeg =>
    rw [hr7, ok_bind] at h
    cases hr8 : Indexation.deserialize pSeg.1 DeSeriModePerformValidation with
    | error er => rw [hr8, error_bind] at h; cases h
    | ok pInd =>
    rw [hr8, ok_bind] at h
    rw [bind_assoc_except] at h
    obtain ⟨-, h⟩ := unit_bind_ok h
    dsimp only at h
    rw [pure_bind] at h
    simp only [pure, Except.pure, Except.ok.injEq, Prod.mk.injEq] at h
    obtain ⟨he, hrest⟩ := h
    subst he hrest
    obtain ⟨hbs1, -⟩ := readNum_eq hr1
    obtain ⟨hbs2, hlt2⟩ := readNum_eq hr2
    obtain ⟨hbs4, hlt4⟩ := readNum_eq hr4
    obtain ⟨hbs6, hlt6⟩ := readNum_eq hr6
    obtain ⟨hbs7, hlen7⟩ := readN_eq hr7
    obtain ⟨hIndRest, hIndBs, hIndMin, hIndMax⟩ :=
      Indexation.deserialize_inv hr8
    have hSegEmit : pSeg.1 = (pInd.1).emit := hIndBs
    constructor
    · rw [TransactionEssence.emit]
      dsimp only
      rw [hbs1, hty0, hbs2, hInBs, hInSegs, hbs4, hOutBs, hOutSegs, hbs6,
        hbs7, hSegEmit]
      simp only [List.length_map, hInLen, hOutLen, ← hlen7, hSegEmit]
      simp [List.append_assoc]
    · unfold TransactionEssence.serialize
      simp only [hasMode_pv, if_true]
      have hvalid : TransactionEssence.serValid
          { Inputs := pIns.1.map Prod.fst, Outputs := pOuts.1.map Prod.fst,
            Payload := some pInd.1 } = none := by
        have hc1 : ¬ (pIns.1.map Prod.fst).length < MinInputsCount := by
          simp only [List.length_map, hInLen]
          have hv : MinInputsCount = 1 := rfl
          omega
        have hc2 : ¬ (pIns.1.map Prod.fst).length > MaxInputsCount := by
          simp only [List.length_map, hInLen]
          have hv : MaxInputsCount = 127 := rfl
          omega
        have hc3 : ¬ ¬ lexicallyOrderedWithoutDups
            (((pIns.1.map Prod.fst).map UTXOInput.emit)) = true := by
          rw [← hInSegs]
          exact fun hh => hh hInLex
        have hc4 : ¬ (pOuts.1.map Prod.fst).length < MinOutputsCount := by
          simp only [List.length_map, hOutLen]
          have hv : MinOutputsCount = 1 := rfl
          omega
        have hc5 : ¬ (pOuts.1.map Prod.fst).length > MaxOutputsCount := by
          simp only [List.length_map, hOutLen]
          have hv : MaxOutputsCount = 127 := rfl
          omega
        have hc6 : ¬ ¬ lexicallyOrderedWithoutDups
            (((pOuts.1.map Prod.fst).map Output.emit)) = true := by
          rw [← hOutSegs]
          exact fun hh => hh hOutLex
        unfold TransactionEssence.serValid
        dsimp only
        rw [if_neg hc1, if_neg hc2, if_neg hc3, if_neg hc4, if_neg hc5,
          if_neg hc6, if_neg hSum']
      rw [hvalid, abortIf_none, ok_bind,
        serializeList_eq (fun x hx => by
          obtain ⟨pr, hpr, hfst⟩ := List.mem_map.mp hx
          rw [← hfst]
          exact (hInAll pr hpr).1), ok_bind,
        serializeList_eq (fun x hx => by
          obtain ⟨pr, hpr, hfst⟩ := List.mem_map.mp hx
          rw [← hfst]
          exact (hOutAll pr hpr).1), ok_bind]
      rw [Indexation.serialize_pv_ok hIndMin hIndMax, ok_bind, pure_bind]
      rw [TransactionEssence.emit]
      dsimp only
      simp only [List.length_map, hInLen, hOutLen]
      rfl

theorem Transaction_deserialize_inv {data rest : Bytes} {t : Transaction}
    (h : Transaction.deserialize data DeSeriModePerformValidation =
      .ok (t, rest)) :
    rest = [] ∧ data = t.emit ∧
    Transaction.serialize t DeSeriModePerformValidation = .ok t.emit := by
  unfold Transaction.deserialize at h
  obtain ⟨hG0, h⟩ := unit_bind_ok h
  simp only [hasMode_pv, if_true] at hG0
  have htype := abortIf_ok_none hG0
  obtain ⟨-, htval⟩ := checkType_none htype
  cases hr1 : readN TypeDenotationByteSize data with
  | error er => rw [hr1, error_bind] at h; cases h
  | ok p1 =>
  rw [hr1, ok_bind] at h
  cases hr2 : TransactionEssence.deserialize p1.2 DeSeriModePerformValidation with
  | error er => rw [hr2, error_bind] at h; cases h
  | ok pEss =>
  rw [hr2, ok_bind] at h
  cases hr3 : readNum UInt16ByteSize pEss.2 with
  | error er => rw [hr3, error_bind] at h; cases h
  | ok pUC =>
  rw [hr3, ok_bind] at h
  obtain ⟨hS1, h⟩ := unit_bind_ok h
  simp only [hasMode_pv, if_true] at hS1
  obtain ⟨hUMin, hUMax⟩ := ite2_throw_ok hS1
  cases hr4 : parseObjsSeg
      (fun bs => UnlockBlock.deserialize bs DeSeriModePerformValidation)
      pUC.1 pUC.2 with
  | error er => rw [hr4, error_bind] at h; cases h
  | ok pUbs =>
  rw [hr4, ok_bind] at h
  obtain ⟨hS2, h⟩ := unit_bind_ok h
  simp only [hasMode_pv, if_true] at hS2
  have hUV := abortIf_ok_none hS2
  obtain ⟨hDone, h⟩ := unit_bind_ok h
  have hUbsNil := doneCheck_pv_ok hDone
  simp only [pure, Except.pure, Except.ok.injEq, Prod.mk.injEq] at h
  obtain ⟨ht, hrest⟩ := h
  subst ht hrest
  obtain ⟨hUbsBs, hUbsLen, hUbsAll⟩ := parseObjsSeg_eq
    (fun bs x r hx => ⟨True.intro, UnlockBlock_deserialize_inv hx⟩) hr4
  have hUbsSegs : pUbs.1.map Prod.snd =
      (pUbs.1.map Prod.fst).map UnlockBlock.emit :=
    map_snd_eq_map_emit (fun pr hpr => (hUbsAll pr hpr).2)
  obtain ⟨hEssBs, hEssSer⟩ := TransactionEssence_deserialize_inv hr2
  obtain ⟨hbs1, hlen1⟩ := readN_eq hr1
  have hty1 : p1.1 = leBytes TransactionPayloadTypeID TypeDenotationByteSize :=
    readN4_type_eq hr1 htval
  obtain ⟨hbs3, hlt3⟩ := readNum_eq hr3
  refine ⟨hUbsNil, ?_, ?_⟩
  · rw [Transaction.emit]
    dsimp only
    rw [hbs1, hty1, hEssBs, hbs3, hUbsBs, hUbsSegs, hUbsNil]
    simp only [List.length_map, hUbsLen]
    simp [List.append_assoc]
  · unfold Transaction.serialize
    simp only [hasMode_pv, if_true]
    have hCnt : (if (pUbs.1.map Prod.fst).length < MinInputsCount then
          some Err.minNotReached
        else if (pUbs.1.map Prod.fst).length > MaxInputsCount then
          some Err.maxExceeded
        else none) = none := by
      simp only [List.length_map, hUbsLen]
      rw [if_neg hUMin, if_neg hUMax]
    rw [hUV, abortIf_none, ok_bind, hCnt, abortIf_none, ok_bind]
    rw [hEssSer, ok_bind]
    rw [Transaction.emit]
    rfl

theorem parsePayload_inv {sub : Bytes} {pl : Payload}
    (h : parsePayload sub DeSeriModePerformValidation = .ok pl) :
    sub = pl.emit ∧
    Payload.serialize pl DeSeriModePerformValidation = .ok pl.emit := by
  unfold parsePayload at h
  dsimp only at h
  by_cases h0 :
      leVal (sub.take TypeDenotationByteSize) = TransactionPayloadTypeID
  · rw [if_pos h0] at h
    cases hr : Transaction.deserialize sub DeSeriModePerformValidation with
    | error er => rw [hr, error_bind] at h; cases h
    | ok p =>
    rw [hr, ok_bind] at h
    obtain ⟨hS, h⟩ := unit_bind_ok h
    simp only [pure, Except.pure, Except.ok.injEq] at h
    subst h
    obtain ⟨-, hbs, hser⟩ := Transaction_deserialize_inv hr
    exact ⟨hbs, hser⟩
  · rw [if_neg h0] at h
    by_cases h1 :
        leVal (sub.take TypeDenotationByteSize) = MilestonePayloadTypeID
    · rw [if_pos h1] at h
      cases hr : Milestone.deserialize sub DeSeriModePerformValidation with
      | error er => rw [hr, error_bind] at h; cases h
      | ok p =>
      rw [hr, ok_bind] at h
      obtain ⟨hS, h⟩ := unit_bind_ok h
      simp only [pure, Except.pure, Except.ok.injEq] at h
      subst h
      obtain ⟨-, hbs, hser⟩ := Milestone_deserialize_inv hr
      exact ⟨hbs, hser⟩
    · rw [if_neg h1] at h
      by_cases h2 :
          leVal (sub.take TypeDenotationByteSize) = IndexationPayloadTypeID
      · rw [if_pos h2] at h
        cases hr : Indexation.deserialize sub DeSeriModePerformValidation with
        | error er => rw [hr, error_bind] at h; cases h
        | ok p =>
        rw [hr, ok_bind] at h
        obtain ⟨hS, h⟩ := unit_bind_ok h
        simp only [pure, Except.pure, Except.ok.injEq] at h
        subst h
        obtain ⟨-, hbs, hmin, hmax⟩ := Indexation.deserialize_inv hr
        exact ⟨hbs, Indexation.serialize_pv_ok hmin hmax⟩
      · rw [if_neg h2, throw_eq] at h
        cases h

/-! ## Claim C1 -/

/-- C1: For every byte buffer that `Message.deserialize` accepts in
PerformValidation mode, the buffer is fully consumed and calling
`Message.serialize` in PerformValidation mode on the resulting message
succeeds and reproduces the buffer byte-for-byte (serialize after
deserialize is the identity on every accepted buffer). -/
theorem C1_message_serialize_after_deserialize {data rest : Bytes}
    {msg : Message}
    (h : Message.deserialize data DeSeriModePerformValidation =
      .ok (msg, rest)) :
    rest = [] ∧
    Message.serialize msg DeSeriModePerformValidation = .ok data := by
  unfold Message.deserialize at h
  obtain ⟨hG0, h⟩ := unit_bind_ok h
  simp only [hasMode_pv, if_true] at hG0
  obtain ⟨hMinLen, hMaxLen⟩ := abortIf_seq_ok hG0
  have hLenLe : ¬ data.length > MessageBinSerializedMaxSize := by
    intro hgt
    rw [if_pos hgt] at hMaxLen
    cases hMaxLen
  cases hr1 : readNum UInt64ByteSize data with
  | error er => rw [hr1, error_bind] at h; cases h
  | ok pNet =>
  rw [hr1, ok_bind] at h
  cases hr2 : readNum OneByte pNet.2 with
  | error er => rw [hr2, error_bind] at h; cases h
  | ok pCnt =>
  rw [hr2, ok_bind] at h
  obtain ⟨hS1, h⟩ := unit_bind_ok h
  simp only [hasMode_pv, if_true] at hS1
  obtain ⟨hCMin, hCMax⟩ := ite2_throw_ok hS1
  cases hr3 : readChunks 32 pCnt.1 pCnt.2 with
  | error er => rw [hr3, error_bind] at h; cases h
  | ok pPar =>
  rw [hr3, ok_bind] at h
  obtain ⟨hS2, h⟩ := unit_bind_ok h
  simp only [hasMode_pv, if_true] at hS2
  have hLex := ite_throw_ok hS2
  rw [not_not] at hLex
  cases hr4 : readNum UInt32ByteSize pPar.2 with
  | error er => rw [hr4, error_bind] at h; cases h
  | ok pL =>
  rw [hr4, ok_bind] at h
  obtain ⟨hbs1, hlt1⟩ := readNum_eq hr1
  obtain ⟨hbs2, hlt2⟩ := readNum_eq hr2
  obtain ⟨hbs3, hlen3⟩ := readChunks_eq hr3
  obtain ⟨hbs4, hlt4⟩ := readNum_eq hr4
  have hc1 : ¬ pPar.1.length < MinParentsInAMessage := by
    rw [hlen3]; exact hCMin
  have hc2 : ¬ pPar.1.length > MaxParentsInAMessage := by
    rw [hlen3]; exact hCMax
  have hc3 : ¬ ¬ lexicallyOrderedWithoutDups (pPar.1.map Subtype.val) = true :=
    fun hh => hh hLex
  by_cases hpl : pL.1 = 0
  · rw [if_pos hpl, pure_bind] at h
    cases hr7 : readNum UInt64ByteSize pL.2 with
    | error er => rw [hr7, error_bind] at h; cases h
    | ok pNon =>
    rw [hr7, ok_bind] at h
    obtain ⟨hDone, h⟩ := unit_bind_ok h
    have hNil := doneCheck_pv_ok hDone
    simp only [pure, Except.pure, Except.ok.injEq, Prod.mk.injEq] at h
    obtain ⟨hm, hrest⟩ := h
    subst hm hrest
    obtain ⟨hbs7, hlt7⟩ := readNum_eq hr7
    refine ⟨hNil, ?_⟩
    unfold Message.serialize
    simp only [hasMode_pv, if_true]
    have hvalid : Message.serValid
        { NetworkID := pNet.1, Parents := pPar.1, Payload := none,
          Nonce := pNon.1 } = none := by
      unfold Message.serValid
      dsimp only
      rw [if_neg hc1, if_neg hc2, if_neg hc3]
    rw [hvalid, abortIf_none, ok_bind]
    dsimp only
    rw [pure_bind]
    have hdata : leBytes pNet.1 UInt64ByteSize ++
        writeArraySlice OneByte 32 pPar.1 ++ leBytes 0 UInt32ByteSize ++
        leBytes pNon.1 UInt64ByteSize = data := by
      rw [hbs1, hbs2, hbs3, hbs4, hbs7, hNil, writeArraySlice, hlen3, hpl]
      simp [List.append_assoc]
    rw [hdata, if_neg hLenLe]
    rfl
  · rw [if_neg hpl] at h
    rw [bind_assoc_except] at h
    cases hr5 : readN pL.1 pL.2 with
    | error er => rw [hr5, error_bind] at h; cases h
    | ok pSeg =>
    rw [hr5, ok_bind] at h
    rw [bind_assoc_except] at h
    cases hr6 : parsePayload pSeg.1 DeSeriModePerformValidation with
    | error er => rw [hr6, error_bind] at h; cases h
    | ok pl =>
    rw [hr6, ok_bind, pure_bind] at h
    dsimp only at h
    cases hr7 : readNum UInt64ByteSize pSeg.2 with
    | error er => rw [hr7, error_bind] at h; cases h
    | ok pNon =>
    rw [hr7, ok_bind] at h
    obtain ⟨hDone, h⟩ := unit_bind_ok h
    have hNil := doneCheck_pv_ok hDone
    simp only [pure, Except.pure, Except.ok.injEq, Prod.mk.injEq] at h
    obtain ⟨hm, hrest⟩ := h
    subst hm hrest
    obtain ⟨hbs5, hlen5⟩ := readN_eq hr5
    obtain ⟨hplemit, hplser⟩ := parsePayload_inv hr6
    obtain ⟨hbs7, hlt7⟩ := readNum_eq hr7
    refine ⟨hNil, ?_⟩
    unfold Message.serialize
    simp only [hasMode_pv, if_true]
    have hvalid : Message.serValid
        { NetworkID := pNet.1, Parents := pPar.1, Payload := some pl,
          Nonce := pNon.1 } = none := by
      unfold Message.serValid
      dsimp only
      rw [if_neg hc1, if_neg hc2, if_neg hc3]
    rw [hvalid, abortIf_none, ok_bind]
    dsimp only
    rw [hplser, ok_bind, pure_bind]
    have hdata : leBytes pNet.1 UInt64ByteSize ++
        writeArraySlice OneByte 32 pPar.1 ++
        (leBytes pl.emit.length UInt32ByteSize ++ pl.emit) ++
        leBytes pNon.1 UInt64ByteSize = data := by
      rw [hbs1, hbs2, hbs3, hbs4, hbs5, hbs7, hNil, writeArraySlice, hlen3,
        ← hplemit, hlen5]
      simp [List.append_assoc]
    rw [hdata, if_neg hLenLe]
    rfl

/-- Witness for C1: the 85-byte buffer holding network ID 1, the two
parents 32×00 and 00…01, no payload and nonce 0 is accepted by the
deserializer, and the theorem yields that serializing the resulting
message reproduces it. -/
theorem C1_message_serialize_after_deserialize_witness :
    ([] : Bytes) = [] ∧
    Message.serialize
        ⟨1, [zero32, one32], none, 0⟩ DeSeriModePerformValidation =
      .ok ([1, 0, 0, 0, 0, 0, 0, 0] ++ [2] ++ zero32.val ++ one32.val ++
        [0, 0, 0, 0] ++ List.replicate 8 0) :=
  C1_message_serialize_after_deserialize
    (show Message.deserialize
        ([1, 0, 0, 0, 0, 0, 0, 0] ++ [2] ++ zero32.val ++ one32.val ++
          [0, 0, 0, 0] ++ List.replicate 8 0) DeSeriModePerformValidation =
      .ok (⟨1, [zero32, one32], none, 0⟩, []) by decide)

/-! ## Claim C6 -/

/-- C6: Serializing or deserializing an Indexation in PerformValidation
mode succeeds only when the index length is between 1 and 64 bytes
inclusive: an Indexation with a 1-byte index is accepted, one with a
0-byte index is rejected with a below-minimum error, and one with a
65-byte index is rejected with an exceeds-maximum (serialize) or
invalid-length (deserialize) error. -/
theorem C6_indexation_index_length_validation :
    (∀ (u : Indexation) (out : Bytes),
        Indexation.serialize u DeSeriModePerformValidation = .ok out →
        1 ≤ u.Index.length ∧ u.Index.length ≤ 64) ∧
    (∀ u : Indexation, u.Index.length = 0 →
        Indexation.serialize u DeSeriModePerformValidation =
          .error .indexationIndexUnderMinSize) ∧
    (∀ u : Indexation, u.Index.length = 65 →
        Indexation.serialize u DeSeriModePerformValidation =
          .error .indexationIndexExceedsMaxSize) ∧
    (∀ u : Indexation, 1 ≤ u.Index.length → u.Index.length ≤ 64 →
        Indexation.serialize u DeSeriModePerformValidation = .ok u.emit) ∧
    (∀ (data : Bytes) (u : Indexation) (rest : Bytes),
        Indexation.deserialize data DeSeriModePerformValidation = .ok (u, rest) →
        1 ≤ u.Index.length ∧ u.Index.length ≤ 64) ∧
    Indexation.deserialize [2, 0, 0, 0, 1, 0, 73, 0, 0, 0, 0]
        DeSeriModePerformValidation = .ok (⟨[73], []⟩, []) ∧
    Indexation.deserialize [2, 0, 0, 0, 0, 0, 0, 0, 0, 0, 0]
        DeSeriModePerformValidation = .error .indexationIndexUnderMinSize ∧
    Indexation.deserialize
        ([2, 0, 0, 0] ++ [65, 0] ++ List.replicate 65 7 ++ [0, 0, 0, 0])
        DeSeriModePerformValidation = .error .lengthInvalid := by
  refine ⟨?_, ?_, ?_, ?_, ?_, by decide, by decide, by decide⟩
  · intro u out h
    unfold Indexation.serialize at h
    simp only [hasMode_pv, if_true, gt_iff_lt] at h
    split at h
    · rw [throw_eq, error_bind] at h; cases h
    · next hc1 =>
        rw [pure_bind] at h
        split at h
        · rw [throw_eq, error_bind] at h; cases h
        · next hc2 =>
            have h1 : IndexationIndexMaxLength = 64 := rfl
            have h2 : IndexationIndexMinLength = 1 := rfl
            omega
  · intro u h0
    unfold Indexation.serialize
    simp only [hasMode_pv, if_true, gt_iff_lt]
    rw [if_neg (show ¬ IndexationIndexMaxLength < u.Index.length by
          have : IndexationIndexMaxLength = 64 := rfl; omega),
        pure_bind,
        if_pos (show u.Index.length < IndexationIndexMinLength by
          have : IndexationIndexMinLength = 1 := rfl; omega)]
    rfl
  · intro u h65
    unfold Indexation.serialize
    simp only [hasMode_pv, if_true, gt_iff_lt]
    rw [if_pos (show IndexationIndexMaxLength < u.Index.length by
          have : IndexationIndexMaxLength = 64 := rfl; omega)]
    rfl
  · intro u h1 h64
    exact Indexation.serialize_pv_ok h1 h64
  · intro data u rest h
    obtain ⟨-, -, hmin, hmax⟩ := Indexation.deserialize_inv h
    exact ⟨hmin, hmax⟩

/-- Witness for C6 at concrete inputs: an index of length 1 is accepted by
serialization. -/
theorem C6_indexation_index_length_validation_witness :
    Indexation.serialize ⟨[73], []⟩ DeSeriModePerformValidation =
      .ok (Indexation.emit ⟨[73], []⟩) :=
  C6_indexation_index_length_validation.2.2.2.1 ⟨[73], []⟩ (by decide) (by decide)

/-! ## Claim C7 -/

/-- C7: Serializing the Indexation with index "IOTA" (bytes 49 4F 54 41)
and data DE AD BE EF produces exactly
`02 00 00 00 | 04 00 | 49 4F 54 41 | 04 00 00 00 | DE AD BE EF`
(little-endian u32 payload type 2, u16 index length prefix, index bytes,
u32 data length prefix, data bytes), and deserializing that sequence
yields an Indexation equal to the input. -/
theorem C7_indexation_concrete_roundtrip :
    Indexation.serialize ⟨[0x49, 0x4F, 0x54, 0x41], [0xDE, 0xAD, 0xBE, 0xEF]⟩
        DeSeriModePerformValidation =
      .ok [0x02, 0x00, 0x00, 0x00, 0x04, 0x00, 0x49, 0x4F, 0x54, 0x41,
           0x04, 0x00, 0x00, 0x00, 0xDE, 0xAD, 0xBE, 0xEF] ∧
    Indexation.deserialize
        [0x02, 0x00, 0x00, 0x00, 0x04, 0x00, 0x49, 0x4F, 0x54, 0x41,
         0x04, 0x00, 0x00, 0x00, 0xDE, 0xAD, 0xBE, 0xEF]
        DeSeriModePerformValidation =
      .ok (⟨[0x49, 0x4F, 0x54, 0x41], [0xDE, 0xAD, 0xBE, 0xEF]⟩, []) := by
  constructor
  · decide
  · decide

/-! ## Claim C8 -/

/-- C8 counterexample: a `TreasuryOutput` whose amount exceeds the token
supply (2,779,530,283,277,761) is accepted — serialization in
PerformValidation mode succeeds and deserialization of the produced bytes
in PerformValidation mode succeeds, contradicting the claim that the codec
rejects such amounts. -/
theorem C8_treasury_output_counterexample :
    TokenSupply < 2779530283277762 ∧
    TreasuryOutput.serialize ⟨2779530283277762⟩ DeSeriModePerformValidation =
      .ok (TreasuryOutput.emit ⟨2779530283277762⟩) ∧
    TreasuryOutput.deserialize (TreasuryOutput.emit ⟨2779530283277762⟩)
        DeSeriModePerformValidation = .ok (⟨2779530283277762⟩, []) := by
  refine ⟨by decide, rfl, by decide⟩

/-- C8 (amended): the TreasuryOutput codec does not enforce
`amount ≤ tokenSupply` — for every `TreasuryOutput` (any representable
amount, including amounts above the token supply) serialization succeeds
in every mode, and deserializing the produced bytes in PerformValidation
mode succeeds and returns the same output. -/
theorem C8_treasury_output_amended (t : TreasuryOutput)
    (mode : DeSerializationMode) (hlt : t.Amount < 2 ^ 64) :
    TreasuryOutput.serialize t mode = .ok t.emit ∧
    TreasuryOutput.deserialize t.emit DeSeriModePerformValidation =
      .ok (t, []) := by
  constructor
  · rfl
  · unfold TreasuryOutput.deserialize
    simp only [hasMode_pv, if_true, bind_assoc_except]
    have hchk1 :
        checkMinByteLength TreasuryOutputBytesSize (TreasuryOutput.emit t).length
          = none := by
      unfold checkMinByteLength TreasuryOutput.emit
      rw [List.length_append, leBytes_length, leBytes_length]
      rfl
    have hchk2 : checkTypeByte (TreasuryOutput.emit t) OutputTreasuryOutput = none := rfl
    rw [hchk1, abortIf_none, ok_bind, hchk2, abortIf_none, ok_bind]
    have hr1 : readN SmallTypeDenotationByteSize (TreasuryOutput.emit t) =
        .ok (leBytes OutputTreasuryOutput SmallTypeDenotationByteSize,
             leBytes t.Amount 8) := rfl
    rw [hr1, ok_bind]
    have hr2 : readNum UInt64ByteSize (leBytes t.Amount 8) = .ok (t.Amount, []) := by
      unfold readNum readN
      rw [if_pos (show UInt64ByteSize ≤ (leBytes t.Amount 8).length by
            rw [leBytes_length]; decide),
          ok_bind,
          List.take_of_length_le (by rw [leBytes_length]; decide),
          List.drop_eq_nil_of_le (by rw [leBytes_length]; decide)]
      have : leVal (leBytes t.Amount 8) = t.Amount := by
        rw [leVal_leBytes]
        exact Nat.mod_eq_of_lt (by norm_num at hlt ⊢; omega)
      dsimp only
      rw [this]
      rfl
    rw [hr2, ok_bind]
    rfl

/-- Witness for C8 (amended) at a concrete output and amount above the
token supply. -/
theorem C8_treasury_output_amended_witness :
    TreasuryOutput.serialize ⟨2779530283277762⟩ DeSeriModePerformValidation =
      .ok (TreasuryOutput.emit ⟨2779530283277762⟩) ∧
    TreasuryOutput.deserialize (TreasuryOutput.emit ⟨2779530283277762⟩)
        DeSeriModePerformValidation = .ok (⟨2779530283277762⟩, []) :=
  C8_treasury_output_amended ⟨2779530283277762⟩ DeSeriModePerformValidation
    (by norm_num)

/-! ## Claim C9 -/

/-- C9: `Milestone.Deserialize` rejects an empty decoded public-key list
and a public-key/signature count mismatch in every mode (the first two
conjuncts quantify over all modes; the next two evaluate the rejections
in NoValidation mode), while the lexical-order-and-uniqueness check on
the public keys is gated behind PerformValidation (the same buffer with
out-of-order keys parses under NoValidation and is rejected under
PerformValidation). -/
theorem C9_milestone_deserialize_ungated_checks :
    (∀ (mode : DeSerializationMode) (data : Bytes) (m : Milestone)
        (rest : Bytes),
        Milestone.deserialize data mode = .ok (m, rest) →
        m.PublicKeys ≠ [] ∧ m.PublicKeys.length = m.Signatures.length) ∧
    Milestone.deserialize msEmptyKeysBytes DeSeriModeNoValidation =
      .error .milestoneTooFewPublicKeys ∧
    Milestone.deserialize msCountMismatchBytes DeSeriModeNoValidation =
      .error .milestoneSignaturesPublicKeyCountMismatch ∧
    Milestone.deserialize msOutOfOrderBytes DeSeriModeNoValidation =
      .ok (msOutOfOrder, []) ∧
    Milestone.deserialize msOutOfOrderBytes DeSeriModePerformValidation =
      .error .milestonePublicKeyOrderViolatesLexicalOrder := by
  refine ⟨?_, by decide, by decide, by decide, by decide⟩
  intro mode data m rest h
  unfold Milestone.deserialize at h
  obtain ⟨-, h⟩ := unit_bind_ok h
  cases hr1 : readN TypeDenotationByteSize data with
  | error e => rw [hr1, error_bind] at h; cases h
  | ok p1 =>
  rw [hr1, ok_bind] at h
  cases hr2 : readNum UInt32ByteSize p1.2 with
  | error e => rw [hr2, error_bind] at h; cases h
  | ok pIdx =>
  rw [hr2, ok_bind] at h
  cases hr3 : readNum UInt64ByteSize pIdx.2 with
  | error e => rw [hr3, error_bind] at h; cases h
  | ok pTs =>
  rw [hr3, ok_bind] at h
  cases hr4 : readExact 32 pTs.2 with
  | error e => rw [hr4, error_bind] at h; cases h
  | ok pP1 =>
  rw [hr4, ok_bind] at h
  cases hr5 : readExact 32 pP1.2 with
  | error e => rw [hr5, error_bind] at h; cases h
  | ok pP2 =>
  rw [hr5, ok_bind] at h
  cases hr6 : readExact 32 pP2.2 with
  | error e => rw [hr6, error_bind] at h; cases h
  | ok pMr =>
  rw [hr6, ok_bind] at h
  cases hr7 : readArraySlice OneByte 32 pMr.2 with
  | error e => rw [hr7, error_bind] at h; cases h
  | ok pPks =>
  rw [hr7, ok_bind] at h
  obtain ⟨hS1, h⟩ := unit_bind_ok h
  have hne0 : ¬ (pPks.1.length = 0) := ite_throw_ok hS1
  obtain ⟨-, h⟩ := unit_bind_ok h
  cases hr8 : readArraySlice OneByte 64 pPks.2 with
  | error e => rw [hr8, error_bind] at h; cases h
  | ok pSigs =>
  rw [hr8, ok_bind] at h
  obtain ⟨hS3, h⟩ := unit_bind_ok h
  have heq : ¬ (pPks.1.length ≠ pSigs.1.length) := ite_throw_ok hS3
  obtain ⟨-, h⟩ := unit_bind_ok h
  simp only [pure, Except.pure, Except.ok.injEq, Prod.mk.injEq] at h
  obtain ⟨hm, -⟩ := h
  subst hm
  constructor
  · dsimp only
    intro hh
    exact hne0 (by rw [hh]; rfl)
  · dsimp only
    omega

/-- Witness for C9's universally quantified conjunct at the concrete
NoValidation parse of the out-of-order buffer. -/
theorem C9_milestone_deserialize_ungated_checks_witness :
    msOutOfOrder.PublicKeys ≠ [] ∧
    msOutOfOrder.PublicKeys.length = msOutOfOrder.Signatures.length :=
  C9_milestone_deserialize_ungated_checks.1 DeSeriModeNoValidation
    msOutOfOrderBytes msOutOfOrder [] (by decide)

/-! ## Byte-order lemmas -/

theorem bytesCompare_swap (a b : Bytes) :
    bytesCompare a b = (bytesCompare b a).swap := by
  induction a generalizing b with
  | nil => cases b <;> rfl
  | cons x xs ih =>
      cases b with
      | nil => rfl
      | cons y ys =>
          simp only [bytesCompare]
          rcases Nat.lt_trichotomy x.val y.val with h | h | h
          · simp [h, Nat.lt_asymm h, Ordering.swap]
          · have h1 : ¬ x.val < y.val := by omega
            have h2 : ¬ y.val < x.val := by omega
            simp [h1, h2, ih ys]
          · simp [h, Nat.lt_asymm h, Ordering.swap]

theorem bytesLe_total (a b : Bytes) : (bytesLe a b || bytesLe b a) = true := by
  cases h : bytesCompare b a <;>
    simp [bytesLe, bytesCompare_swap a b, h, Ordering.swap]

theorem bytesCompare_le_trans {a b c : Bytes} (h1 : bytesCompare a b ≠ .gt)
    (h2 : bytesCompare b c ≠ .gt) : bytesCompare a c ≠ .gt := by
  induction a generalizing b c with
  | nil => cases c <;> simp [bytesCompare]
  | cons x xs ih =>
      cases b with
      | nil => simp [bytesCompare] at h1
      | cons y ys =>
          cases c with
          | nil => simp [bytesCompare] at h2
          | cons z zs =>
              simp only [bytesCompare] at h1 h2 ⊢
              rcases Nat.lt_trichotomy x.val z.val with hxz | hxz | hxz
              · simp [hxz]
              · have hxy : ¬ x.val < y.val := by
                  intro hh
                  have hzy : z.val < y.val := by omega
                  simp [Nat.lt_asymm hzy, hzy] at h2
                have hyx : ¬ y.val < x.val := by
                  intro hh
                  simp [Nat.lt_asymm hh, hh] at h1
                have hyz : ¬ y.val < z.val := by omega
                have hzy : ¬ z.val < y.val := by omega
                simp [hxy, hyx] at h1
                simp [hyz, hzy] at h2
                simp [hxz, lt_irrefl]
                exact ih h1 h2
              · have hyx : ¬ y.val < x.val := by
                  intro hh
                  simp [Nat.lt_asymm hh, hh] at h1
                have hzy : ¬ z.val < y.val := by
                  intro hh
                  simp [Nat.lt_asymm hh, hh] at h2
                omega

theorem bytesLe_trans {a b c : Bytes} (h1 : bytesLe a b = true)
    (h2 : bytesLe b c = true) : bytesLe a c = true := by
  simp only [bytesLe, ne_eq, decide_eq_true_eq] at h1 h2 ⊢
  exact bytesCompare_le_trans h1 h2

/-! ## C3 refinement lemmas -/

theorem firstIndexOf_append_self {k : MilestonePublicKey}
    {l : List MilestonePublicKey} (h : k ∉ l) :
    firstIndexOf k (l ++ [k]) = l.length := by
  induction l with
  | nil => simp [firstIndexOf]
  | cons a r ih =>
      simp only [List.cons_append, firstIndexOf, List.append_eq]
      have hak : ¬ (a = k) := fun hh => h (by rw [hh]; exact List.mem_cons_self k r)
      rw [if_neg hak, ih (fun hm => h (List.mem_cons_of_mem _ hm))]
      simp

theorem firstIndexOf_append_of_mem {k : MilestonePublicKey}
    {l : List MilestonePublicKey} (h : k ∈ l) (t : List MilestonePublicKey) :
    firstIndexOf k (l ++ t) = firstIndexOf k l := by
  induction l with
  | nil => cases h
  | cons a r ih =>
      simp only [List.cons_append, firstIndexOf, List.append_eq]
      by_cases hak : a = k
      · rw [if_pos hak, if_pos hak]
      · rw [if_neg hak, if_neg hak,
          ih (List.mem_of_ne_of_mem (fun hh => hak hh.symm) h)]

theorem verifyLoop_eq_specWalk
    (verify : MilestonePublicKey → Bytes → MilestoneSignature → Bool)
    (ess : Bytes) (sigs : List MilestoneSignature)
    (applicable : Finset MilestonePublicKey) :
    ∀ (rest earlier : List MilestonePublicKey)
      (seen : List (MilestonePublicKey × Nat)),
    (∀ k, seenLookup seen k =
        if k ∈ earlier then some (firstIndexOf k earlier) else none) →
    verifySignaturesLoop verify ess sigs applicable rest earlier.length seen =
      verifySpecWalk verify ess sigs applicable earlier rest := by
  intro rest
  induction rest with
  | nil => intro earlier seen _; rfl
  | cons pk rest ih =>
      intro earlier seen hinv
      simp only [verifySignaturesLoop, verifySpecWalk]
      rw [hinv pk]
      by_cases hmem : pk ∈ earlier
      · rw [if_pos hmem, if_pos hmem]
      · rw [if_neg hmem, if_neg hmem]
        dsimp only
        by_cases happ : pk ∉ applicable
        · rw [if_pos happ, if_pos happ]
        · rw [if_neg happ, if_neg happ]
          by_cases hver : ¬ verify pk ess (sigs.getD earlier.length zeroSig) = true
          · rw [if_pos hver, if_pos hver]
          · rw [if_neg hver, if_neg hver]
            have hlen : earlier.length + 1 = (earlier ++ [pk]).length := by simp
            rw [hlen]
            apply ih
            intro k
            simp only [seenLookup]
            by_cases hk : pk = k
            · subst hk
              rw [if_pos rfl, if_pos (by simp), firstIndexOf_append_self hmem]
            · rw [if_neg hk, hinv k]
              by_cases hkE : k ∈ earlier
              · rw [if_pos hkE, if_pos (List.mem_append_left _ hkE),
                  firstIndexOf_append_of_mem hkE]
              · rw [if_neg hkE, if_neg (by
                  intro hh
                  rcases List.mem_append.mp hh with h1 | h1
                  · exact hkE h1
                  · exact hk (List.mem_singleton.mp h1).symm)]

theorem verifySpecWalk_none_iff
    (verify : MilestonePublicKey → Bytes → MilestoneSignature → Bool)
    (ess : Bytes) (sigs : List MilestoneSignature)
    (applicable : Finset MilestonePublicKey) :
    ∀ (rest earlier : List MilestonePublicKey),
    (verifySpecWalk verify ess sigs applicable earlier rest = none ↔
      ∀ (i : Nat) (hi : i < rest.length),
        rest.get ⟨i, hi⟩ ∉ earlier ∧
        (∀ (j : Nat) (hj : j < i),
          rest.get ⟨j, Nat.lt_trans hj hi⟩ ≠ rest.get ⟨i, hi⟩) ∧
        rest.get ⟨i, hi⟩ ∈ applicable ∧
        verify (rest.get ⟨i, hi⟩) ess
          (sigs.getD (earlier.length + i) zeroSig) = true) := by
  intro rest
  induction rest with
  | nil =>
      intro earlier
      simp [verifySpecWalk]
  | cons pk rest ih =>
      intro earlier
      simp only [verifySpecWalk]
      constructor
      · intro h
        by_cases h1 : pk ∈ earlier
        · rw [if_pos h1] at h; cases h
        rw [if_neg h1] at h
        by_cases h2 : pk ∉ applicable
        · rw [if_pos h2] at h; cases h
        rw [if_neg h2] at h
        by_cases h3 : ¬ verify pk ess (sigs.getD earlier.length zeroSig) = true
        · rw [if_pos h3] at h; cases h
        rw [if_neg h3] at h
        rw [not_not] at h2 h3
        have hrec := (ih (earlier ++ [pk])).mp h
        intro i hi
        match i with
        | 0 =>
            refine ⟨h1, by omega, h2, ?_⟩
            rw [Nat.add_zero]
            exact h3
        | i + 1 =>
            have hi' : i < rest.length := by
              simpa using hi
            obtain ⟨ha, hb, hc, hd⟩ := hrec i hi'
            have hmem : rest.get ⟨i, hi'⟩ ∉ earlier ∧ rest.get ⟨i, hi'⟩ ≠ pk := by
              constructor
              · exact fun hh => ha (List.mem_append_left _ hh)
              · exact fun hh => ha (List.mem_append_right _ (List.mem_singleton.mpr hh))
            refine ⟨hmem.1, ?_, hc, ?_⟩
            · intro j hj
              match j with
              | 0 =>
                  exact fun hh => hmem.2 hh.symm
              | j + 1 =>
                  have hj' : j < i := by omega
                  exact hb j hj'
            · have : (earlier ++ [pk]).length + i = earlier.length + (i + 1) := by
                simp only [List.length_append, List.length_singleton]
                omega
              rw [← this]
              exact hd
      · intro hall
        have h0 := hall 0 (by simp)
        dsimp only [List.get] at h0
        obtain ⟨h1, _, h2, h3⟩ := h0
        rw [if_neg h1, if_neg (fun hh => hh h2),
            if_neg (fun hh => hh (by rw [Nat.add_zero] at h3; exact h3))]
        apply (ih (earlier ++ [pk])).mpr
        intro i hi
        have hi' : i + 1 < (pk :: rest).length := by simpa using hi
        obtain ⟨ha, hb, hc, hd⟩ := hall (i + 1) hi'
        refine ⟨?_, ?_, hc, ?_⟩
        · intro hh
          rcases List.mem_append.mp hh with hm | hm
          · exact ha hm
          · exact hb 0 (by omega) (List.mem_singleton.mp hm).symm
        · intro j hj
          exact hb (j + 1) (by omega)
        · have : (earlier ++ [pk]).length + i = earlier.length + (i + 1) := by
            simp only [List.length_append, List.length_singleton]
            omega
          rw [this]
          exact hd

theorem getD_eq_get {α : Type} (l : List α) (d : α) {i : Nat}
    (h : i < l.length) : l.getD i d = l.get ⟨i, h⟩ := by
  rw [List.getD_eq_getElem?_getD, List.getElem?_eq_getElem h]
  rfl

/-! ## Claim C3 -/

/-- C3: Under valid-threshold and matching-count preconditions,
`VerifySignatures` equals the claim's reference walk (first violated
condition — duplicate, non-applicable, failed verification — determines
the returned error with its position), and it returns nil iff every
public key is distinct from all earlier ones, belongs to the applicable
set, and its signature verifies against the essence. -/
theorem C3_verify_signatures_characterization
    (verify : MilestonePublicKey → Bytes → MilestoneSignature → Bool)
    (m : Milestone) (minSigThreshold : Int)
    (applicable : Finset MilestonePublicKey)
    (h1 : 1 ≤ minSigThreshold)
    (h2 : m.Signatures.length = m.PublicKeys.length)
    (h3 : minSigThreshold ≤ (m.Signatures.length : Int))
    (h4 : minSigThreshold ≤ (applicable.card : Int)) :
    Milestone.VerifySignatures verify m minSigThreshold applicable =
      verifySignaturesClaimSpec verify m applicable ∧
    (Milestone.VerifySignatures verify m minSigThreshold applicable = none ↔
      ∃ ess, m.Essence = .ok ess ∧
        ∀ (i : Nat) (hi : i < m.PublicKeys.length),
          (∀ (j : Nat) (hj : j < i),
            m.PublicKeys.get ⟨j, Nat.lt_trans hj hi⟩ ≠
              m.PublicKeys.get ⟨i, hi⟩) ∧
          m.PublicKeys.get ⟨i, hi⟩ ∈ applicable ∧
          verify (m.PublicKeys.get ⟨i, hi⟩) ess
            (m.Signatures.get ⟨i, by omega⟩) = true) := by
  have hminpk : ¬ m.PublicKeys.length < MinPublicKeysInAMilestone := by
    have hv : MinPublicKeysInAMilestone = 1 := rfl
    omega
  obtain ⟨ess, hessOk⟩ : ∃ e, m.Essence = .ok e := by
    unfold Milestone.Essence
    rw [if_neg hminpk]
    exact ⟨_, rfl⟩
  have hmain : Milestone.VerifySignatures verify m minSigThreshold applicable =
      verifySpecWalk verify ess m.Signatures applicable [] m.PublicKeys := by
    unfold Milestone.VerifySignatures
    rw [if_neg (show ¬ minSigThreshold = 0 by omega),
        if_neg (show ¬ m.Signatures.length = 0 by omega),
        if_neg (show ¬ m.Signatures.length ≠ m.PublicKeys.length from
          fun hh => hh h2),
        if_neg (show ¬ ((m.Signatures.length : Int) < minSigThreshold) by omega),
        if_neg (show ¬ ((applicable.card : Int) < minSigThreshold) by omega),
        hessOk]
    dsimp only
    have hw := verifyLoop_eq_specWalk verify ess m.Signatures applicable
      m.PublicKeys [] [] (fun k => by simp [seenLookup])
    simpa using hw
  have hspec : verifySignaturesClaimSpec verify m applicable =
      verifySpecWalk verify ess m.Signatures applicable [] m.PublicKeys := by
    unfold verifySignaturesClaimSpec
    rw [hessOk]
  refine ⟨hmain.trans hspec.symm, ?_⟩
  rw [hmain,
    verifySpecWalk_none_iff verify ess m.Signatures applicable m.PublicKeys []]
  constructor
  · intro hall
    refine ⟨ess, hessOk, ?_⟩
    intro i hi
    obtain ⟨_, hb, hc, hd⟩ := hall i hi
    refine ⟨hb, hc, ?_⟩
    rw [← getD_eq_get m.Signatures zeroSig (show i < m.Signatures.length by omega)]
    simpa using hd
  · rintro ⟨ess', hess', hall⟩
    have hee : ess' = ess := by
      rw [hessOk] at hess'
      cases hess'
      rfl
    subst hee
    intro i hi
    obtain ⟨hb, hc, hd⟩ := hall i hi
    refine ⟨by simp, hb, hc, ?_⟩
    rw [← getD_eq_get m.Signatures zeroSig
      (show i < m.Signatures.length by omega)] at hd
    simpa using hd

/-- Witness for C3 at a concrete milestone, threshold and key set. -/
theorem C3_verify_signatures_characterization_witness :
    Milestone.VerifySignatures (fun _ _ _ => true) exampleMilestoneOneKey
      1 {zero32} =
    verifySignaturesClaimSpec (fun _ _ _ => true) exampleMilestoneOneKey
      {zero32} :=
  (C3_verify_signatures_characterization (fun _ _ _ => true)
    exampleMilestoneOneKey 1 {zero32}
    (by decide) (by decide) (by decide) (by decide)).1

/-! ## Claim C2 -/

/-- C2 (code-bug evidence): `VerifySignatures` compares the threshold with
`minSigThreshold == 0` only, so the negative threshold `-1` slips through
every check and verification succeeds on a valid one-key milestone —
although threshold `0` is rejected with the invalid-threshold error whose
own message says the minimum threshold must be at least 1.  The claim
(and the code's own error text) requires an error for every threshold
below 1. -/
theorem C2_negative_threshold_not_rejected :
    Milestone.VerifySignatures (fun _ _ _ => true) exampleMilestoneOneKey
      (-1) {zero32} = none ∧
    Milestone.VerifySignatures (fun _ _ _ => true) exampleMilestoneOneKey
      0 {zero32} = some .milestoneInvalidMinSignatureThreshold := by
  constructor
  · decide
  · decide

/-! ## Claim C4 -/

/-- C4: For every non-empty list of public keys, `NewMilestone` returns a
milestone whose `PublicKeys` is a byte-wise lexically ascending
reordering (permutation) of the given keys, with all other fields set
from the arguments and no signatures; for an empty list it returns the
too-few-public-keys error. -/
theorem C4_new_milestone_sorts (index timestamp : Nat)
    (p1 p2 : MilestoneParentMessageID) (mp : MilestoneInclusionMerkleProof)
    (pubKeys : List MilestonePublicKey) :
    (pubKeys = [] →
      NewMilestone index timestamp p1 p2 mp pubKeys =
        .error .milestoneTooFewPublicKeys) ∧
    (pubKeys ≠ [] → ∃ m : Milestone,
      NewMilestone index timestamp p1 p2 mp pubKeys = .ok m ∧
      m.PublicKeys.Perm pubKeys ∧
      List.Pairwise (fun a b : MilestonePublicKey => bytesLe a.val b.val = true)
        m.PublicKeys ∧
      m.Index = index ∧ m.Timestamp = timestamp ∧ m.Parent1 = p1 ∧
      m.Parent2 = p2 ∧ m.InclusionMerkleProof = mp ∧ m.Signatures = []) := by
  constructor
  · intro h
    subst h
    rfl
  · intro h
    have hlen : ¬ pubKeys.length < MinPublicKeysInAMilestone := by
      have : MinPublicKeysInAMilestone = 1 := rfl
      have : pubKeys.length ≠ 0 := by
        intro hh; exact h (List.eq_nil_of_length_eq_zero hh)
      omega
    refine ⟨_, by unfold NewMilestone; rw [if_neg hlen], ?_, ?_, rfl, rfl, rfl, rfl, rfl, rfl⟩
    · exact List.mergeSort_perm pubKeys _
    · exact @List.sorted_mergeSort MilestonePublicKey
        (fun a b => bytesLe a.val b.val)
        (fun a b c hab hbc => bytesLe_trans hab hbc)
        (fun a b => bytesLe_total a.val b.val)
        pubKeys

/-- Witness for C4: two keys given in descending order come back ascending
(a genuine reordering). -/
theorem C4_new_milestone_sorts_witness :
    [one32, zero32] ≠ ([] : List MilestonePublicKey) ∧
    ∃ m : Milestone,
      NewMilestone 7 9 zero32 zero32 zero32 [one32, zero32] = .ok m ∧
      m.PublicKeys.Perm [one32, zero32] ∧
      List.Pairwise (fun a b : MilestonePublicKey => bytesLe a.val b.val = true)
        m.PublicKeys ∧
      m.Index = 7 ∧ m.Timestamp = 9 ∧ m.Parent1 = zero32 ∧
      m.Parent2 = zero32 ∧ m.InclusionMerkleProof = zero32 ∧
      m.Signatures = [] :=
  ⟨by decide,
   (C4_new_milestone_sorts 7 9 zero32 zero32 zero32 [one32, zero32]).2
     (by decide)⟩

/-! ## Claim C5 -/

/-- C5: `Sign` computes the essence, invokes the signing function on the
public keys and the essence, and fails with the produced/wanted
signature-count-mismatch error whenever the returned signature count
differs from the public-key count; on success the `Signatures` field
holds exactly the returned signatures. -/
theorem C5_sign_count_mismatch {E : Type}
    (f : List MilestonePublicKey → Bytes → Except E (List MilestoneSignature))
    (m : Milestone) (ess : Bytes) (sigs : List MilestoneSignature)
    (hess : m.Essence = .ok ess) (hf : f m.PublicKeys ess = .ok sigs) :
    (sigs.length ≠ m.PublicKeys.length →
      Milestone.Sign f m =
        (m, some (.producedCountMismatch m.PublicKeys.length sigs.length))) ∧
    (∀ m' : Milestone, Milestone.Sign f m = (m', none) →
      m' = { m with Signatures := sigs }) := by
  unfold Milestone.Sign
  rw [hess]
  dsimp only
  rw [hf]
  dsimp only
  constructor
  · intro hne
    rw [if_pos (by omega)]
  · intro m' h
    split at h
    · cases h
    · split at h
      · cases h
      · split at h
        · cases h
        · exact (Prod.mk.injEq _ _ _ _ ▸ h).1.symm

/-- Witness for C5: a signing function that produces two signatures for a
one-key milestone triggers the count-mismatch error. -/
theorem C5_sign_count_mismatch_witness :
    Milestone.Sign (fun _ _ => Except.ok [zeroSig, zeroSig])
        exampleMilestoneOneKey =
      (exampleMilestoneOneKey,
       some (SignErr.producedCountMismatch (E := Unit) 1 2)) :=
  (C5_sign_count_mismatch (fun _ _ => Except.ok [zeroSig, zeroSig])
      exampleMilestoneOneKey _ [zeroSig, zeroSig] rfl rfl).1 (by decide)

/-! ## Claim C10 -/

/-- C10: `Sign` is error-atomic — whenever it returns an error the
milestone is unchanged, and in all cases every field other than
`Signatures` is unchanged. -/
theorem C10_sign_frame {E : Type}
    (f : List MilestonePublicKey → Bytes → Except E (List MilestoneSignature))
    (m : Milestone) :
    ((Milestone.Sign f m).2 ≠ none → (Milestone.Sign f m).1 = m) ∧
    ((Milestone.Sign f m).1.Index = m.Index ∧
     (Milestone.Sign f m).1.Timestamp = m.Timestamp ∧
     (Milestone.Sign f m).1.Parent1 = m.Parent1 ∧
     (Milestone.Sign f m).1.Parent2 = m.Parent2 ∧
     (Milestone.Sign f m).1.InclusionMerkleProof = m.InclusionMerkleProof ∧
     (Milestone.Sign f m).1.PublicKeys = m.PublicKeys) := by
  unfold Milestone.Sign
  cases hess : m.Essence with
  | error e => exact ⟨fun _ => rfl, rfl, rfl, rfl, rfl, rfl, rfl⟩
  | ok ess =>
      dsimp only
      cases hf : f m.PublicKeys ess with
      | error e => exact ⟨fun _ => rfl, rfl, rfl, rfl, rfl, rfl, rfl⟩
      | ok sigs =>
          dsimp only
          by_cases h1 : m.PublicKeys.length ≠ sigs.length
          · rw [if_pos h1]
            exact ⟨fun _ => rfl, rfl, rfl, rfl, rfl, rfl, rfl⟩
          · rw [if_neg h1]
            by_cases h2 : sigs.length < MinSignaturesInAMilestone
            · rw [if_pos h2]
              exact ⟨fun _ => rfl, rfl, rfl, rfl, rfl, rfl, rfl⟩
            · rw [if_neg h2]
              by_cases h3 : sigs.length > MaxSignaturesInAMilestone
              · rw [if_pos h3]
                exact ⟨fun _ => rfl, rfl, rfl, rfl, rfl, rfl, rfl⟩
              · rw [if_neg h3]
                exact ⟨fun hh => absurd rfl hh, rfl, rfl, rfl, rfl, rfl, rfl⟩

/-- Witness for C10: a failing signing function leaves the milestone
unchanged. -/
theorem C10_sign_frame_witness :
    (Milestone.Sign (fun _ _ => Except.error ()) exampleMilestoneOneKey).1 =
      exampleMilestoneOneKey :=
  (C10_sign_frame (fun _ _ => Except.error ()) exampleMilestoneOneKey).1
    (by decide)

end GIota
